import Mathlib

set_option linter.unusedSectionVars false

/-!
Verification of the DenseRow view of blaze-lib
(blaze/math/views/DenseRow.h).

The file shallowly embeds the two DenseRow class template specializations:
the primary template for row-major matrices (DenseRow<MT,SO>, suffix RM
below) and the specialization for column-major matrices (DenseRow<MT,false>,
suffix CM below), together with the row(matrix,index) factory and the
assignment engine (scalar 2-wide unrolled kernels, intrinsic/SIMD kernels,
sparse scatter kernels, aliasing protocol of the four assignment operators).

Modelling conventions:
* A matrix is its logical contents: row count, column count and an entry
  function.  Element writes are functional updates.  Machine storage order
  is invisible at this level; the two specializations are embedded as two
  separate families of definitions, mirroring the two class bodies.
* Element values are an abstract type with 0, +, -, * (instantiated with
  Int in concrete witnesses); the element default value of reset() is 0.
* A right-hand-side vector expression is a size, the outcome of its
  canAlias/isAliased checks against the destination matrix, a dense
  evaluation function and a sparse (index,value) sequence.  The evaluation
  functions take the current matrix state: an expression aliasing the
  matrix reads whatever the matrix holds at read time, which is exactly
  what the aliasing protocol of the operators has to defend against.
  Kernels likewise read their dense source against the evolving state.
* C++ exceptions (std::invalid_argument) become an Except error channel;
  absence of mutation on failure is structural (the error carries no
  matrix).
* The fixed-iteration C++ for-loops become structural recursion on the
  iteration count; the SIMD remainder loops, whose guard is tested against
  a stride, carry an explicit fuel that is always instantiated large
  enough (the width IT::size is positive).
-/

namespace Blaze

/-- Abstract dense matrix: the capability set consumed by DenseRow
(rows(), columns(), element access).  Storage order is a compile-time
property of the C++ type and does not appear in the logical contents. -/
structure Mat (α : Type) where
  rows : Nat
  cols : Nat
  entry : Nat → Nat → α

/-- Functional update of one matrix element, the model of the write
`matrix_(r,c) = v`. -/
def setEntry {α : Type} (M : Mat α) (i j : Nat) (v : α) : Mat α :=
  { M with entry := fun r c => if r = i ∧ c = j then v else M.entry r c }

/-- Error channel of the view: the two std::invalid_argument exceptions
thrown by DenseRow ("Invalid row access index" from the constructor,
"Vector sizes do not match" from the assignment operators). -/
inductive BlazeError where
  | invalidRowAccess
  | sizeMismatch
deriving DecidableEq

/-- A right-hand-side vector expression as seen by the assignment
operators: its size(), whether IsSparseVector holds for its type, the
boolean outcomes of its canAlias / isAliased checks against the address of
the destination matrix, and its evaluation against the current matrix
state (dense element read, and sparse (index,value) sequence in strictly
increasing index order). -/
structure VecExpr (α : Type) where
  n : Nat
  sparse : Bool
  canAliasM : Bool
  isAliasedM : Bool
  evalD : Mat α → Nat → α
  evalS : Mat α → List (Nat × α)

/-- Validity of a sparse (index,value) sequence: strictly increasing
indices (the sparse vector invariant stated in the spec) that fit the
vector size. -/
def sparseValid {α : Type} (s : List (Nat × α)) (n : Nat) : Prop :=
  List.Pairwise (fun p q => p.1 < q.1) s ∧ ∀ p ∈ s, p.1 < n

/-- Kernel dispatch configuration of the row-major specialization: the
value of the SFINAE switches Vectorized*Assign (velig), the intrinsic
packet width IT::size (W, a positive machine constant), and the streaming
threshold cacheSize / (sizeof(ElementType) * 3). -/
structure KernelCfg where
  velig : Bool
  W : Nat
  Wpos : 0 < W
  thresh : Nat

section Ops

variable {α : Type} [Zero α] [Add α] [Sub α] [Mul α]

/-! ### Construction (both specializations) and the row() factory -/

/-- DenseRow<MT,SO>::DenseRow(matrix,index) (lines 429-438): stores the
matrix reference and row index, throwing "Invalid row access index" when
matrix.rows() <= index.  The view is the pair (matrix, index). -/
def mkDenseRowRM (M : Mat α) (index : Nat) : Except BlazeError (Mat α × Nat) :=
  if M.rows ≤ index then .error .invalidRowAccess else .ok (M, index)

/-- DenseRow<MT,false>::DenseRow(matrix,index) (lines 1720-1727): same
bounds check as the primary template. -/
def mkDenseRowCM (M : Mat α) (index : Nat) : Except BlazeError (Mat α × Nat) :=
  if M.rows ≤ index then .error .invalidRowAccess else .ok (M, index)

/-- Free function row(dm,index) (lines 2646-2654): forwards to the
DenseRow constructor, propagating its failure. -/
def row (M : Mat α) (index : Nat) : Except BlazeError (Mat α × Nat) :=
  mkDenseRowRM M index

/-! ### Element access, size, scale, reset, nonZeros -/

/-- DenseRow<MT,SO>::operator[] (lines 455-462): element (row_, index) of
the matrix. -/
def subscriptRM (M : Mat α) (i j : Nat) : α := M.entry i j

/-- DenseRow<MT,false>::operator[] (lines 1747-1752). -/
def subscriptCM (M : Mat α) (i j : Nat) : α := M.entry i j

/-- DenseRow<MT,SO>::size() (lines 862-868): matrix_.columns(). -/
def sizeRM (M : Mat α) : Nat := M.cols

/-- DenseRow<MT,false>::size() (lines 2139-2143). -/
def sizeCM (M : Mat α) : Nat := M.cols

/-- Modelled from the spec: the matrix capability `reset(r)` consumed by
the row-major specialization (the matrix container itself is outside this
repository): it sets every element of row r to its default value. -/
def matrixRowReset (M : Mat α) (i : Nat) : Mat α :=
  { M with entry := fun r c => if r = i ∧ c < M.cols then 0 else M.entry r c }

/-- DenseRow<MT,SO>::reset() (lines 907-913): delegates to
matrix_.reset(row_). -/
def rowResetRM (M : Mat α) (i : Nat) : Mat α := matrixRowReset M i

/-- Loop body of DenseRow<MT,false>::reset() (lines 2194-2202): for each
j < columns, reset matrix_(row_,j) to the default value.  Arguments: next
column, remaining iterations, state. -/
def resetLoopCM (i : Nat) : Nat → Nat → Mat α → Mat α
  | _, 0, M => M
  | j, k+1, M => resetLoopCM i (j+1) k (setEntry M i j 0)

/-- DenseRow<MT,false>::reset() (lines 2194-2202). -/
def rowResetCM (M : Mat α) (i : Nat) : Mat α := resetLoopCM i 0 M.cols M

/-- Modelled from the spec: the matrix capability `nonZeros(r)` consumed
by the row-major specialization: the number of non-default elements of
row r. -/
def matrixRowNonZeros [DecidableEq α] (M : Mat α) (i : Nat) : Nat :=
  (List.range M.cols).countP (fun j => decide (¬ M.entry i j = 0))

/-- DenseRow<MT,SO>::nonZeros() (lines 893-898): delegates to
matrix_.nonZeros(row_). -/
def nonZerosRM [DecidableEq α] (M : Mat α) (i : Nat) : Nat := matrixRowNonZeros M i

/-- Counting loop of DenseRow<MT,false>::nonZeros() (lines 2172-2183):
scan columns 0..k-1 and count the elements that are not isDefault
(i.e. not equal to the default value 0). -/
def nonZerosLoopCM [DecidableEq α] (M : Mat α) (i : Nat) : Nat → Nat
  | 0 => 0
  | k+1 => nonZerosLoopCM M i k + (if M.entry i k = 0 then 0 else 1)

/-- DenseRow<MT,false>::nonZeros() (lines 2172-2183). -/
def nonZerosCM [DecidableEq α] (M : Mat α) (i : Nat) : Nat := nonZerosLoopCM M i M.cols

/-- Loop of DenseRow<MT,SO>::scale (lines 922-932): for j < size(),
matrix_(row_,j) *= scalar.  Arguments: next column, remaining iterations,
state. -/
def scaleLoopRM (i : Nat) (s : α) : Nat → Nat → Mat α → Mat α
  | _, 0, M => M
  | j, k+1, M => scaleLoopRM i s (j+1) k (setEntry M i j (M.entry i j * s))

/-- DenseRow<MT,SO>::scale (lines 922-932). -/
def scaleRM (M : Mat α) (i : Nat) (s : α) : Mat α := scaleLoopRM i s 0 M.cols M

/-- Loop of DenseRow<MT,false>::scale (lines 2213-2222). -/
def scaleLoopCM (i : Nat) (s : α) : Nat → Nat → Mat α → Mat α
  | _, 0, M => M
  | j, k+1, M => scaleLoopCM i s (j+1) k (setEntry M i j (M.entry i j * s))

/-- DenseRow<MT,false>::scale (lines 2213-2222). -/
def scaleCM (M : Mat α) (i : Nat) (s : α) : Mat α := scaleLoopCM i s 0 M.cols M

/-! ### Alias detection -/

/-- DenseRow<MT,SO>::canAlias (lines 953-960): address identity of the
referenced matrix object against the queried address. -/
def canAliasRM (matrixAddr aliasAddr : Nat) : Bool := matrixAddr == aliasAddr

/-- DenseRow<MT,SO>::isAliased (lines 973-980): the same address
comparison. -/
def isAliasedRM (matrixAddr aliasAddr : Nat) : Bool := matrixAddr == aliasAddr

/-- DenseRow<MT,false>::canAlias (lines 2245-2250). -/
def canAliasCM (matrixAddr aliasAddr : Nat) : Bool := matrixAddr == aliasAddr

/-- DenseRow<MT,false>::isAliased (lines 2266-2271). -/
def isAliasedCM (matrixAddr aliasAddr : Nat) : Bool := matrixAddr == aliasAddr

/-! ### Homogeneous (scalar) assignment -/

/-- Loop of DenseRow<MT,SO>::operator=(ElementType) (lines 619-630): for
j < columns, matrix_(row_,j) = rhs. -/
def fillLoopRM (i : Nat) (v : α) : Nat → Nat → Mat α → Mat α
  | _, 0, M => M
  | j, k+1, M => fillLoopRM i v (j+1) k (setEntry M i j v)

/-- DenseRow<MT,SO>::operator=(ElementType) (lines 619-630): homogeneous
assignment of a scalar to all row elements; performs no check and cannot
fail. -/
def fillRM (M : Mat α) (i : Nat) (v : α) : Mat α := fillLoopRM i v 0 M.cols M

/-- Loop of DenseRow<MT,false>::operator=(ElementType) (lines 1891-1901). -/
def fillLoopCM (i : Nat) (v : α) : Nat → Nat → Mat α → Mat α
  | _, 0, M => M
  | j, k+1, M => fillLoopCM i v (j+1) k (setEntry M i j v)

/-- DenseRow<MT,false>::operator=(ElementType) (lines 1891-1901). -/
def fillCM (M : Mat α) (i : Nat) (v : α) : Mat α := fillLoopCM i v 0 M.cols M

/-! ### Scalar (unvectorized) dense kernels, row-major

The four default kernels DenseRow<MT,SO>::assign/addAssign/subAssign/
multAssign(DenseVector) (lines 1014-1029, 1116-1131, 1209-1224,
1302-1317) share one loop shape: a 2-wide manually unrolled loop up to
jend = size & ~1, then a single remainder element.  They differ only in
the combination of old destination value and source value, passed here as
`op` (assign: fun _ s => s; add: +; sub: -; mult: *).  The source is read
against the current matrix state, exactly as the C++ kernel reads
(~rhs)[j] between its writes. -/

/-- Arguments of the recursion: next column j, remaining pair iterations,
state. -/
def binPairLoopRM (op : α → α → α) (i : Nat) (src : Mat α → Nat → α) :
    Nat → Nat → Mat α → Mat α
  | _, 0, M => M
  | j, k+1, M =>
    let M1 := setEntry M i j (op (M.entry i j) (src M j))
    let M2 := setEntry M1 i (j+1) (op (M1.entry i (j+1)) (src M1 (j+1)))
    binPairLoopRM op i src (j+2) k M2

/-- One scalar dense kernel of the row-major specialization: the 2-wide
pair loop up to jend = n - n % 2 followed by the single remainder write
when jend < n. -/
def scalarKernelRM (op : α → α → α) (i : Nat) (src : Mat α → Nat → α)
    (n : Nat) (M : Mat α) : Mat α :=
  let jend := n - n % 2
  let M1 := binPairLoopRM op i src 0 (jend / 2) M
  if jend < n then setEntry M1 i jend (op (M1.entry i jend) (src M1 jend)) else M1

/-! ### Intrinsic (SIMD) dense kernels, row-major -/

/-- Writes of one SIMD packet: g is the packet content, laid down on the
W consecutive columns starting at j of row i.  Arguments: next column,
remaining width, state. -/
def writeChunk (i : Nat) (g : Nat → α) : Nat → Nat → Mat α → Mat α
  | _, 0, M => M
  | j, w+1, M => writeChunk i g (j+1) w (setEntry M i j (g j))

/-- Modelled from the spec: one statement of the vectorized kernels
(Intrinsics.h is outside this repository), i.e.
store(&matrix_(row_,j), load(&matrix_(row_,j)) op (~rhs).get(j)) -
the W-wide source packet and destination packet are read from the current
state, combined elementwise by op, and stored on columns j..j+W-1 of row
i.  stream(...) performs the same data movement with a non-temporal hint,
so plain assignment packets (op = fun _ s => s) model both. -/
def chunkStoreOp (op : α → α → α) (i : Nat) (src : Mat α → Nat → α)
    (j W : Nat) (M : Mat α) : Mat α :=
  writeChunk i (fun c => op (M.entry i c) (src M c)) j W M

/-- The 4-way unrolled packet loop of the vectorized kernels (e.g. lines
1064-1072 for assign, 1158-1166 for addAssign): each iteration issues four
consecutive packet stores and advances by 4*W columns.  Arguments: next
column, remaining iterations, state. -/
def vecBlock4RM (op : α → α → α) (i : Nat) (src : Mat α → Nat → α) (W : Nat) :
    Nat → Nat → Mat α → Mat α
  | _, 0, M => M
  | j, k+1, M =>
    let M1 := chunkStoreOp op i src j W M
    let M2 := chunkStoreOp op i src (j+W) W M1
    let M3 := chunkStoreOp op i src (j+2*W) W M2
    let M4 := chunkStoreOp op i src (j+3*W) W M3
    vecBlock4RM op i src W (j+4*W) k M4

/-- The packet remainder loop for (j = start; j < n; j += W) of the
vectorized kernels (e.g. lines 1073-1075, 1167-1169), and also the whole
streaming loop of vectorized assign (lines 1058-1060).  The guard j < n is
kept verbatim; fuel bounds the recursion and is always passed as n, which
the positive width W makes sufficient.  Arguments: fuel, next column,
state. -/
def vecRemRM (op : α → α → α) (i : Nat) (src : Mat α → Nat → α) (n W : Nat) :
    Nat → Nat → Mat α → Mat α
  | 0, _, M => M
  | fuel+1, j, M =>
    if j < n then vecRemRM op i src n W fuel (j+W) (chunkStoreOp op i src j W M)
    else M

/-- One vectorized dense kernel without streaming branch (addAssign lines
1146-1170, subAssign 1239-1263, multAssign 1332-1356): the 4-way block
loop up to jend = columns & -(W*4), then the packet remainder loop. -/
def vecKernelRM (op : α → α → α) (cfg : KernelCfg) (M : Mat α) (i : Nat)
    (src : Mat α → Nat → α) (n : Nat) : Mat α :=
  let jend := n - n % (cfg.W * 4)
  vecRemRM op i src n cfg.W n jend
    (vecBlock4RM op i src cfg.W 0 (jend / (cfg.W * 4)) M)

/-- Vectorized assign (lines 1044-1077): when columns exceed the cache
threshold and the source is not aliased with the matrix, a non-temporal
streaming loop over all packets; otherwise the 4-way block loop plus
remainder. -/
def assignVecRM (cfg : KernelCfg) (M : Mat α) (i : Nat)
    (src : Mat α → Nat → α) (n : Nat) (aliased : Bool) : Mat α :=
  if cfg.thresh < n ∧ aliased = false then
    vecRemRM (fun _ s => s) i src n cfg.W n 0 M
  else
    vecKernelRM (fun _ s => s) cfg M i src n

/-- SFINAE dispatch of DenseRow<MT,SO>::assign(DenseVector): the
vectorized kernel when VectorizedAssign<VT>::value holds, else the scalar
2-wide kernel (lines 1014-1077). -/
def assignDenseRM (cfg : KernelCfg) (M : Mat α) (i : Nat)
    (src : Mat α → Nat → α) (n : Nat) (aliased : Bool) : Mat α :=
  if cfg.velig then assignVecRM cfg M i src n aliased
  else scalarKernelRM (fun _ s => s) i src n M

/-- SFINAE dispatch of DenseRow<MT,SO>::addAssign(DenseVector) (lines
1116-1170). -/
def addAssignDenseRM (cfg : KernelCfg) (M : Mat α) (i : Nat)
    (src : Mat α → Nat → α) (n : Nat) : Mat α :=
  if cfg.velig then vecKernelRM (fun o s => o + s) cfg M i src n
  else scalarKernelRM (fun o s => o + s) i src n M

/-- SFINAE dispatch of DenseRow<MT,SO>::subAssign(DenseVector) (lines
1209-1263). -/
def subAssignDenseRM (cfg : KernelCfg) (M : Mat α) (i : Nat)
    (src : Mat α → Nat → α) (n : Nat) : Mat α :=
  if cfg.velig then vecKernelRM (fun o s => o - s) cfg M i src n
  else scalarKernelRM (fun o s => o - s) i src n M

/-- SFINAE dispatch of DenseRow<MT,SO>::multAssign(DenseVector) (lines
1302-1356). -/
def multAssignDenseRM (cfg : KernelCfg) (M : Mat α) (i : Nat)
    (src : Mat α → Nat → α) (n : Nat) : Mat α :=
  if cfg.velig then vecKernelRM (fun o s => o * s) cfg M i src n
  else scalarKernelRM (fun o s => o * s) i src n M

/-! ### Sparse kernels, row-major

The sparse kernels iterate the (index,value) sequence of the sparse
source in order; at every call site the source is either a materialized
temporary or a non-aliasing vector, so its sequence is a fixed list. -/

/-- Scatter loop shared by the sparse kernels: for each element of the
sequence in order, write F(current state, element) at (row_, index). -/
def scatterFoldRM (i : Nat) (F : Mat α → Nat × α → α) (M : Mat α)
    (s : List (Nat × α)) : Mat α :=
  s.foldl (fun Mc p => setEntry Mc i p.1 (F Mc p)) M

/-- DenseRow<MT,SO>::assign(SparseVector) (lines 1092-1102):
matrix_(row_,element.index()) = element.value(). -/
def assignSparseRM (M : Mat α) (i : Nat) (s : List (Nat × α)) : Mat α :=
  scatterFoldRM i (fun _ p => p.2) M s

/-- DenseRow<MT,SO>::addAssign(SparseVector) (lines 1185-1195):
matrix_(row_,element.index()) += element.value(). -/
def addAssignSparseRM (M : Mat α) (i : Nat) (s : List (Nat × α)) : Mat α :=
  scatterFoldRM i (fun Mc p => Mc.entry i p.1 + p.2) M s

/-- DenseRow<MT,SO>::subAssign(SparseVector) (lines 1278-1288):
matrix_(row_,element.index()) -= element.value(). -/
def subAssignSparseRM (M : Mat α) (i : Nat) (s : List (Nat × α)) : Mat α :=
  scatterFoldRM i (fun Mc p => Mc.entry i p.1 - p.2) M s

/-- DenseRow<MT,SO>::multAssign(SparseVector) (lines 1371-1385): snapshot
the row into the dense temporary tmp, reset the row, then write
tmp[element.index()] * element.value() for each sparse element. -/
def multAssignSparseRM (M : Mat α) (i : Nat) (s : List (Nat × α)) : Mat α :=
  let tmp : Nat → α := fun j => M.entry i j
  scatterFoldRM i (fun _ p => tmp p.1 * p.2) (rowResetRM M i) s

/-! ### Dense and sparse kernels, column-major

The column-major specialization has no vectorized kernels (its
vectorizable flag is 0); its dense kernels (lines 2288-2301, 2343-2356,
2398-2411, 2453-2466) are the same 2-wide unrolled loops, its sparse
kernels (lines 2318-2327, 2373-2381, 2428-2436, 2483-2495) the same
scatter loops. -/

/-- Pair loop of the column-major dense kernels. -/
def binPairLoopCM (op : α → α → α) (i : Nat) (src : Mat α → Nat → α) :
    Nat → Nat → Mat α → Mat α
  | _, 0, M => M
  | j, k+1, M =>
    let M1 := setEntry M i j (op (M.entry i j) (src M j))
    let M2 := setEntry M1 i (j+1) (op (M1.entry i (j+1)) (src M1 (j+1)))
    binPairLoopCM op i src (j+2) k M2

/-- One dense kernel of the column-major specialization. -/
def scalarKernelCM (op : α → α → α) (i : Nat) (src : Mat α → Nat → α)
    (n : Nat) (M : Mat α) : Mat α :=
  let jend := n - n % 2
  let M1 := binPairLoopCM op i src 0 (jend / 2) M
  if jend < n then setEntry M1 i jend (op (M1.entry i jend) (src M1 jend)) else M1

/-- Scatter loop shared by the column-major sparse kernels. -/
def scatterFoldCM (i : Nat) (F : Mat α → Nat × α → α) (M : Mat α)
    (s : List (Nat × α)) : Mat α :=
  s.foldl (fun Mc p => setEntry Mc i p.1 (F Mc p)) M

/-- DenseRow<MT,false>::assign(SparseVector) (lines 2318-2327). -/
def assignSparseCM (M : Mat α) (i : Nat) (s : List (Nat × α)) : Mat α :=
  scatterFoldCM i (fun _ p => p.2) M s

/-- DenseRow<MT,false>::addAssign(SparseVector) (lines 2373-2381). -/
def addAssignSparseCM (M : Mat α) (i : Nat) (s : List (Nat × α)) : Mat α :=
  scatterFoldCM i (fun Mc p => Mc.entry i p.1 + p.2) M s

/-- DenseRow<MT,false>::subAssign(SparseVector) (lines 2428-2436). -/
def subAssignSparseCM (M : Mat α) (i : Nat) (s : List (Nat × α)) : Mat α :=
  scatterFoldCM i (fun Mc p => Mc.entry i p.1 - p.2) M s

/-- DenseRow<MT,false>::multAssign(SparseVector) (lines 2483-2495):
snapshot, loop-based reset of the strided row, scatter of
tmp[index]*value. -/
def multAssignSparseCM (M : Mat α) (i : Nat) (s : List (Nat × α)) : Mat α :=
  let tmp : Nat → α := fun j => M.entry i j
  scatterFoldCM i (fun _ p => tmp p.1 * p.2) (rowResetCM M i) s

/-! ### Materialization -/

/-- Value at index j of the dense materialization of a sparse
(index,value) sequence: the listed value, or the default 0 when j is not
listed. -/
def lookupSparse : List (Nat × α) → Nat → α
  | [], _ => 0
  | p :: rest, j => if p.1 = j then p.2 else lookupSparse rest j

/-- A plain dense transpose vector used as right-hand side; its
evaluation does not depend on the matrix state, and its canAlias /
isAliased outcome against the destination matrix is the flag ca. -/
def denseVecCa (v : Nat → α) (n : Nat) (ca : Bool) : VecExpr α :=
  { n := n, sparse := false, canAliasM := ca, isAliasedM := ca,
    evalD := fun _ => v, evalS := fun _ => [] }

/-- A plain sparse transpose vector used as right-hand side, given by its
(index,value) sequence; dense reads see the densified values. -/
def sparseVecCa (s : List (Nat × α)) (n : Nat) (ca : Bool) : VecExpr α :=
  { n := n, sparse := true, canAliasM := ca, isAliasedM := ca,
    evalD := fun _ => lookupSparse s, evalS := fun _ => s }

/-- The dense materialization used by the column-major operator=
(line 1956, const ResultType tmp(~rhs)): the row's dense result type is
built from the right-hand side evaluated against the current state; a
sparse source densifies with default 0 at unlisted positions. -/
def densify (M : Mat α) (e : VecExpr α) : Nat → α :=
  if e.sparse then lookupSparse (e.evalS M) else e.evalD M

/-- The independent temporary tmp = VT::ResultType(~rhs) materialized by
the aliasing branches of the operators: the expression evaluated once
against the pre-assignment state, packaged as a vector of the same
category that no longer aliases anything. -/
def materializeExpr (M : Mat α) (e : VecExpr α) : VecExpr α :=
  { n := e.n, sparse := e.sparse, canAliasM := false, isAliasedM := false,
    evalD := fun _ => e.evalD M, evalS := fun _ => e.evalS M }

/-! ### The four assignment operators, row-major -/

/-- DenseRow<MT,SO>::operator=(Vector) (lines 672-697): size guard, then
either materialize VT::ResultType and assign from the temporary (aliasing
case: a sparse source materializes to a sparse temporary and is
scatter-assigned), or reset first when the source is sparse and assign
directly (non-aliasing case). -/
def opAssignRM (cfg : KernelCfg) (M : Mat α) (i : Nat) (e : VecExpr α) :
    Except BlazeError (Mat α) :=
  if M.cols ≠ e.n then .error .sizeMismatch
  else if e.canAliasM then
    if e.sparse then .ok (assignSparseRM M i (e.evalS M))
    else .ok (assignDenseRM cfg M i (fun _ => e.evalD M) e.n false)
  else
    if e.sparse then
      let M1 := rowResetRM M i
      .ok (assignSparseRM M1 i (e.evalS M1))
    else .ok (assignDenseRM cfg M i e.evalD e.n e.isAliasedM)

/-- DenseRow<MT,SO>::operator+=(Vector) (lines 710-733). -/
def opAddAssignRM (cfg : KernelCfg) (M : Mat α) (i : Nat) (e : VecExpr α) :
    Except BlazeError (Mat α) :=
  if M.cols ≠ e.n then .error .sizeMismatch
  else if e.canAliasM then
    if e.sparse then .ok (addAssignSparseRM M i (e.evalS M))
    else .ok (addAssignDenseRM cfg M i (fun _ => e.evalD M) e.n)
  else
    if e.sparse then .ok (addAssignSparseRM M i (e.evalS M))
    else .ok (addAssignDenseRM cfg M i e.evalD e.n)

/-- DenseRow<MT,SO>::operator-=(Vector) (lines 746-769). -/
def opSubAssignRM (cfg : KernelCfg) (M : Mat α) (i : Nat) (e : VecExpr α) :
    Except BlazeError (Mat α) :=
  if M.cols ≠ e.n then .error .sizeMismatch
  else if e.canAliasM then
    if e.sparse then .ok (subAssignSparseRM M i (e.evalS M))
    else .ok (subAssignDenseRM cfg M i (fun _ => e.evalD M) e.n)
  else
    if e.sparse then .ok (subAssignSparseRM M i (e.evalS M))
    else .ok (subAssignDenseRM cfg M i e.evalD e.n)

/-- DenseRow<MT,SO>::operator*=(Vector) (lines 783-806): a sparse source
is materialized even without aliasing, because in-place sparse multiply
needs the old row values. -/
def opMultAssignRM (cfg : KernelCfg) (M : Mat α) (i : Nat) (e : VecExpr α) :
    Except BlazeError (Mat α) :=
  if M.cols ≠ e.n then .error .sizeMismatch
  else if e.canAliasM ∨ e.sparse then
    if e.sparse then .ok (multAssignSparseRM M i (e.evalS M))
    else .ok (multAssignDenseRM cfg M i (fun _ => e.evalD M) e.n)
  else .ok (multAssignDenseRM cfg M i e.evalD e.n)

/-! ### The four assignment operators, column-major -/

/-- DenseRow<MT,false>::operator=(Vector) (lines 1946-1967): unlike the
primary template, its aliasing branch materializes the row's own dense
ResultType (line 1956), so a sparse aliasing source is densified before
the dense kernel runs. -/
def opAssignCM (M : Mat α) (i : Nat) (e : VecExpr α) :
    Except BlazeError (Mat α) :=
  if M.cols ≠ e.n then .error .sizeMismatch
  else if e.canAliasM then
    .ok (scalarKernelCM (fun _ s => s) i (fun _ => densify M e) e.n M)
  else
    if e.sparse then
      let M1 := rowResetCM M i
      .ok (assignSparseCM M1 i (e.evalS M1))
    else .ok (scalarKernelCM (fun _ s => s) i e.evalD e.n M)

/-- DenseRow<MT,false>::operator+=(Vector) (lines 1982-2003): materializes
VT::ResultType in the aliasing branch, like the primary template. -/
def opAddAssignCM (M : Mat α) (i : Nat) (e : VecExpr α) :
    Except BlazeError (Mat α) :=
  if M.cols ≠ e.n then .error .sizeMismatch
  else if e.canAliasM then
    if e.sparse then .ok (addAssignSparseCM M i (e.evalS M))
    else .ok (scalarKernelCM (fun o s => o + s) i (fun _ => e.evalD M) e.n M)
  else
    if e.sparse then .ok (addAssignSparseCM M i (e.evalS M))
    else .ok (scalarKernelCM (fun o s => o + s) i e.evalD e.n M)

/-- DenseRow<MT,false>::operator-=(Vector) (lines 2019-2040). -/
def opSubAssignCM (M : Mat α) (i : Nat) (e : VecExpr α) :
    Except BlazeError (Mat α) :=
  if M.cols ≠ e.n then .error .sizeMismatch
  else if e.canAliasM then
    if e.sparse then .ok (subAssignSparseCM M i (e.evalS M))
    else .ok (scalarKernelCM (fun o s => o - s) i (fun _ => e.evalD M) e.n M)
  else
    if e.sparse then .ok (subAssignSparseCM M i (e.evalS M))
    else .ok (scalarKernelCM (fun o s => o - s) i e.evalD e.n M)

/-- DenseRow<MT,false>::operator*=(Vector) (lines 2057-2078). -/
def opMultAssignCM (M : Mat α) (i : Nat) (e : VecExpr α) :
    Except BlazeError (Mat α) :=
  if M.cols ≠ e.n then .error .sizeMismatch
  else if e.canAliasM ∨ e.sparse then
    if e.sparse then .ok (multAssignSparseCM M i (e.evalS M))
    else .ok (scalarKernelCM (fun o s => o * s) i (fun _ => e.evalD M) e.n M)
  else .ok (scalarKernelCM (fun o s => o * s) i e.evalD e.n M)

/-! ### Observable equivalence of the two storage-order specializations -/

/-- Two matrices hold the same logical values: same shape and equal
entries at every in-range position. -/
def LogicEq (M N : Mat α) : Prop :=
  M.rows = N.rows ∧ M.cols = N.cols ∧
    ∀ r c, r < M.rows → c < M.cols → M.entry r c = N.entry r c

/-- Observable equality of two operator outcomes: same error, or
logically equal result matrices. -/
def ExceptLogicEq : Except BlazeError (Mat α) → Except BlazeError (Mat α) → Prop
  | .error e1, .error e2 => e1 = e2
  | .ok M, .ok N => LogicEq M N
  | _, _ => False

end Ops

/-! ### Concrete instances used in witnesses and counterexamples -/

/-- A concrete kernel configuration: scalar dispatch, packet width 4,
streaming threshold 16. -/
def cfg0 : KernelCfg := ⟨false, 4, by decide, 16⟩

/-- A concrete kernel configuration with the vectorized dispatch
enabled. -/
def cfg1 : KernelCfg := ⟨true, 4, by decide, 16⟩

/-- A concrete 1 x 2 integer matrix whose single row is (5, 7). -/
def M0 : Mat Int :=
  ⟨1, 2, fun r c => if r = 0 ∧ c = 0 then 5 else if r = 0 ∧ c = 1 then 7 else 0⟩

/-- A sparse expression of size 2 that reads the destination matrix
(canAlias answers true): its only entry, at index 0, is entry(0,0) + 4.
Over M0 it evaluates to the sparse sequence [(0, 9)]. -/
def eAliasSparse : VecExpr Int :=
  { n := 2, sparse := true, canAliasM := true, isAliasedM := true,
    evalD := fun M => lookupSparse [(0, M.entry 0 0 + 4)],
    evalS := fun M => [(0, M.entry 0 0 + 4)] }

/-- A dense expression of size 2 that reads the destination matrix
(canAlias answers true): the doubling expression row(M,0) * 2. -/
def eAliasDense : VecExpr Int :=
  { n := 2, sparse := false, canAliasM := true, isAliasedM := true,
    evalD := fun M j => M.entry 0 j * 2, evalS := fun _ => [] }

/-! ## Helper lemmas -/

section Lemmas

variable {α : Type} [Zero α] [Add α] [Sub α] [Mul α]

theorem setEntry_rows (M : Mat α) (i j : Nat) (v : α) : (setEntry M i j v).rows = M.rows := rfl

theorem setEntry_cols (M : Mat α) (i j : Nat) (v : α) : (setEntry M i j v).cols = M.cols := rfl

theorem setEntry_entry (M : Mat α) (i j : Nat) (v : α) (r c : Nat) :
    (setEntry M i j v).entry r c = if r = i ∧ c = j then v else M.entry r c := rfl

/-- Composition of two covered-interval descriptions of the same row
update: an update of [a,b) relative to M followed by an update of [b,d)
relative to the intermediate state covers [a,d) relative to M. -/
theorem cover_merge {M Ma Mb : Mat α} {i a b d : Nat} (op : α → α → α) (f : Nat → α)
    (h1 : ∀ r c, Ma.entry r c =
      if r = i ∧ a ≤ c ∧ c < b then op (M.entry r c) (f c) else M.entry r c)
    (h2 : ∀ r c, Mb.entry r c =
      if r = i ∧ b ≤ c ∧ c < d then op (Ma.entry r c) (f c) else Ma.entry r c)
    (hab : a ≤ b) (hbd : b ≤ d) :
    ∀ r c, Mb.entry r c =
      if r = i ∧ a ≤ c ∧ c < d then op (M.entry r c) (f c) else M.entry r c := by
  intro r c
  rw [h2, h1]
  split_ifs <;> first | rfl | omega

theorem writeChunk_rows (i : Nat) (g : Nat → α) :
    ∀ W j M, (writeChunk i g j W M).rows = M.rows := by
  intro W
  induction W with
  | zero => intro j M; rfl
  | succ w ih => intro j M; simp only [writeChunk]; rw [ih]; rfl

theorem writeChunk_cols (i : Nat) (g : Nat → α) :
    ∀ W j M, (writeChunk i g j W M).cols = M.cols := by
  intro W
  induction W with
  | zero => intro j M; rfl
  | succ w ih => intro j M; simp only [writeChunk]; rw [ih]; rfl

theorem writeChunk_entry (i : Nat) (g : Nat → α) :
    ∀ W j M r c, (writeChunk i g j W M).entry r c =
      if r = i ∧ j ≤ c ∧ c < j + W then g c else M.entry r c := by
  intro W
  induction W with
  | zero =>
    intro j M r c
    simp only [writeChunk]
    rw [if_neg (by omega)]
  | succ w ih =>
    intro j M r c
    simp only [writeChunk]
    rw [ih, setEntry_entry]
    by_cases h1 : r = i ∧ j + 1 ≤ c ∧ c < j + 1 + w
    · rw [if_pos h1, if_pos (show r = i ∧ j ≤ c ∧ c < j + (w+1) by omega)]
    · rw [if_neg h1]
      by_cases h2 : r = i ∧ c = j
      · rw [if_pos h2, if_pos (show r = i ∧ j ≤ c ∧ c < j + (w+1) by omega), h2.2]
      · rw [if_neg h2, if_neg (show ¬(r = i ∧ j ≤ c ∧ c < j + (w+1)) by omega)]


theorem chunkStoreOp_rows (op : α → α → α) (i : Nat) (src : Mat α → Nat → α)
    (j W : Nat) (M : Mat α) : (chunkStoreOp op i src j W M).rows = M.rows :=
  writeChunk_rows i _ W j M

theorem chunkStoreOp_cols (op : α → α → α) (i : Nat) (src : Mat α → Nat → α)
    (j W : Nat) (M : Mat α) : (chunkStoreOp op i src j W M).cols = M.cols :=
  writeChunk_cols i _ W j M

theorem chunkStoreOp_entry (op : α → α → α) (i : Nat) (f : Nat → α)
    (j W : Nat) (M : Mat α) :
    ∀ r c, (chunkStoreOp op i (fun _ => f) j W M).entry r c =
      if r = i ∧ j ≤ c ∧ c < j + W then op (M.entry r c) (f c) else M.entry r c := by
  intro r c
  unfold chunkStoreOp
  rw [writeChunk_entry]
  split_ifs with h
  · rw [h.1]
  · rfl

/-- One packet laid on top of a covered prefix extends the cover. -/
theorem chunk_cover_step {M Ma : Mat α} {i a b : Nat} (op : α → α → α) (f : Nat → α) (W : Nat)
    (h : ∀ r c, Ma.entry r c =
      if r = i ∧ a ≤ c ∧ c < b then op (M.entry r c) (f c) else M.entry r c)
    (hab : a ≤ b) :
    ∀ r c, (chunkStoreOp op i (fun _ => f) b W Ma).entry r c =
      if r = i ∧ a ≤ c ∧ c < b + W then op (M.entry r c) (f c) else M.entry r c :=
  cover_merge op f h (chunkStoreOp_entry op i f b W Ma) hab (Nat.le_add_right b W)

theorem binPairLoopRM_step (op : α → α → α) (i : Nat) (src : Mat α → Nat → α)
    (j k : Nat) (M : Mat α) :
    binPairLoopRM op i src j (k+1) M =
      binPairLoopRM op i src (j+2) k
        (setEntry (setEntry M i j (op (M.entry i j) (src M j))) i (j+1)
          (op ((setEntry M i j (op (M.entry i j) (src M j))).entry i (j+1))
              (src (setEntry M i j (op (M.entry i j) (src M j))) (j+1)))) := rfl

theorem binPairLoopRM_rows (op : α → α → α) (i : Nat) (src : Mat α → Nat → α) :
    ∀ k j M, (binPairLoopRM op i src j k M).rows = M.rows := by
  intro k
  induction k with
  | zero => intro j M; rfl
  | succ w ih => intro j M; rw [binPairLoopRM_step, ih]; rfl

theorem binPairLoopRM_cols (op : α → α → α) (i : Nat) (src : Mat α → Nat → α) :
    ∀ k j M, (binPairLoopRM op i src j k M).cols = M.cols := by
  intro k
  induction k with
  | zero => intro j M; rfl
  | succ w ih => intro j M; rw [binPairLoopRM_step, ih]; rfl

theorem binPairLoopRM_entry (op : α → α → α) (i : Nat) (f : Nat → α) :
    ∀ k j M r c, (binPairLoopRM op i (fun _ => f) j k M).entry r c =
      if r = i ∧ j ≤ c ∧ c < j + 2*k then op (M.entry r c) (f c) else M.entry r c := by
  intro k
  induction k with
  | zero =>
    intro j M r c
    rw [show binPairLoopRM op i (fun _ => f) j 0 M = M from rfl, if_neg (by omega)]
  | succ w ih =>
    intro j M r c
    rw [binPairLoopRM_step]
    have h1 : ∀ r c, (setEntry M i j (op (M.entry i j) (f j))).entry r c =
        if r = i ∧ j ≤ c ∧ c < j + 1 then op (M.entry r c) (f c) else M.entry r c := by
      intro r c
      rw [setEntry_entry]
      by_cases ha : r = i ∧ c = j
      · rw [if_pos ha, if_pos (show r = i ∧ j ≤ c ∧ c < j + 1 by omega), ha.1, ha.2]
      · rw [if_neg ha, if_neg (show ¬(r = i ∧ j ≤ c ∧ c < j + 1) by omega)]
    have h2 : ∀ r c,
        (setEntry (setEntry M i j (op (M.entry i j) (f j))) i (j+1)
          (op ((setEntry M i j (op (M.entry i j) (f j))).entry i (j+1))
              (f (j+1)))).entry r c =
        if r = i ∧ j ≤ c ∧ c < j + 2 then op (M.entry r c) (f c) else M.entry r c := by
      refine cover_merge op f h1 ?_ (by omega) (by omega)
      intro r c
      rw [setEntry_entry]
      by_cases ha : r = i ∧ c = j + 1
      · rw [if_pos ha, if_pos (show r = i ∧ j + 1 ≤ c ∧ c < j + 2 by omega), ha.1, ha.2]
      · rw [if_neg ha, if_neg (show ¬(r = i ∧ j + 1 ≤ c ∧ c < j + 2) by omega)]
    have h3 := cover_merge op f h2 (fun r c => ih (j+2) _ r c) (by omega) (by omega)
    have harith : j + 2 + 2 * w = j + 2 * (w + 1) := by ring
    rw [harith] at h3
    exact h3 r c

theorem fillLoopRM_step (i : Nat) (v : α) (j k : Nat) (M : Mat α) :
    fillLoopRM i v j (k+1) M = fillLoopRM i v (j+1) k (setEntry M i j v) := rfl

theorem fillLoopRM_spec (i : Nat) (v : α) :
    ∀ k j M, ((fillLoopRM i v j k M).rows = M.rows ∧ (fillLoopRM i v j k M).cols = M.cols) ∧
      ∀ r c, (fillLoopRM i v j k M).entry r c =
        if r = i ∧ j ≤ c ∧ c < j + k then v else M.entry r c := by
  intro k
  induction k with
  | zero =>
    intro j M
    exact ⟨⟨rfl, rfl⟩, fun r c => by
      rw [show fillLoopRM i v j 0 M = M from rfl, if_neg (by omega)]⟩
  | succ w ih =>
    intro j M
    obtain ⟨⟨hr, hc⟩, hent⟩ := ih (j+1) (setEntry M i j v)
    refine ⟨⟨hr, hc⟩, fun r c => ?_⟩
    rw [fillLoopRM_step, hent r c, setEntry_entry]
    by_cases h1 : r = i ∧ j + 1 ≤ c ∧ c < j + 1 + w
    · rw [if_pos h1, if_pos (show r = i ∧ j ≤ c ∧ c < j + (w+1) by omega)]
    · rw [if_neg h1]
      by_cases h2 : r = i ∧ c = j
      · rw [if_pos h2, if_pos (show r = i ∧ j ≤ c ∧ c < j + (w+1) by omega)]
      · rw [if_neg h2, if_neg (show ¬(r = i ∧ j ≤ c ∧ c < j + (w+1)) by omega)]

theorem fillLoopCM_eq (i : Nat) (v : α) :
    ∀ k j M, fillLoopCM i v j k M = fillLoopRM i v j k M := by
  intro k
  induction k with
  | zero => intro j M; rfl
  | succ w ih =>
    intro j M
    rw [show fillLoopCM i v j (w+1) M = fillLoopCM i v (j+1) w (setEntry M i j v) from rfl,
      fillLoopRM_step, ih]

theorem resetLoopCM_eq (i : Nat) :
    ∀ k j M, resetLoopCM i j k M = fillLoopRM i (0 : α) j k M := by
  intro k
  induction k with
  | zero => intro j M; rfl
  | succ w ih =>
    intro j M
    rw [show resetLoopCM i j (w+1) M = resetLoopCM i (j+1) w (setEntry M i j 0) from rfl,
      fillLoopRM_step, ih]

theorem scaleLoopRM_step (i : Nat) (s : α) (j k : Nat) (M : Mat α) :
    scaleLoopRM i s j (k+1) M = scaleLoopRM i s (j+1) k (setEntry M i j (M.entry i j * s)) := rfl

theorem scaleLoopRM_spec (i : Nat) (s : α) :
    ∀ k j M, ((scaleLoopRM i s j k M).rows = M.rows ∧ (scaleLoopRM i s j k M).cols = M.cols) ∧
      ∀ r c, (scaleLoopRM i s j k M).entry r c =
        if r = i ∧ j ≤ c ∧ c < j + k then M.entry r c * s else M.entry r c := by
  intro k
  induction k with
  | zero =>
    intro j M
    exact ⟨⟨rfl, rfl⟩, fun r c => by
      rw [show scaleLoopRM i s j 0 M = M from rfl, if_neg (by omega)]⟩
  | succ w ih =>
    intro j M
    obtain ⟨⟨hr, hc⟩, hent⟩ := ih (j+1) (setEntry M i j (M.entry i j * s))
    refine ⟨⟨hr, hc⟩, fun r c => ?_⟩
    rw [scaleLoopRM_step, hent r c]
    by_cases h1 : r = i ∧ j + 1 ≤ c ∧ c < j + 1 + w
    · rw [if_pos h1, setEntry_entry, if_neg (show ¬(r = i ∧ c = j) by omega),
        if_pos (show r = i ∧ j ≤ c ∧ c < j + (w+1) by omega)]
    · rw [if_neg h1, setEntry_entry]
      by_cases h2 : r = i ∧ c = j
      · rw [if_pos h2, if_pos (show r = i ∧ j ≤ c ∧ c < j + (w+1) by omega), h2.1, h2.2]
      · rw [if_neg h2, if_neg (show ¬(r = i ∧ j ≤ c ∧ c < j + (w+1)) by omega)]

theorem scaleLoopCM_eq (i : Nat) (s : α) :
    ∀ k j M, scaleLoopCM i s j k M = scaleLoopRM i s j k M := by
  intro k
  induction k with
  | zero => intro j M; rfl
  | succ w ih =>
    intro j M
    rw [show scaleLoopCM i s j (w+1) M =
        scaleLoopCM i s (j+1) w (setEntry M i j (M.entry i j * s)) from rfl,
      scaleLoopRM_step, ih]

theorem rowResetRM_rows (M : Mat α) (i : Nat) : (rowResetRM M i).rows = M.rows := rfl

theorem rowResetRM_cols (M : Mat α) (i : Nat) : (rowResetRM M i).cols = M.cols := rfl

theorem rowResetRM_entry (M : Mat α) (i : Nat) (r c : Nat) :
    (rowResetRM M i).entry r c = if r = i ∧ c < M.cols then 0 else M.entry r c := rfl

theorem rowResetCM_rows (M : Mat α) (i : Nat) : (rowResetCM M i).rows = M.rows := by
  unfold rowResetCM
  rw [resetLoopCM_eq]
  exact (fillLoopRM_spec i 0 M.cols 0 M).1.1

theorem rowResetCM_cols (M : Mat α) (i : Nat) : (rowResetCM M i).cols = M.cols := by
  unfold rowResetCM
  rw [resetLoopCM_eq]
  exact (fillLoopRM_spec i 0 M.cols 0 M).1.2

theorem rowResetCM_entry (M : Mat α) (i : Nat) (r c : Nat) :
    (rowResetCM M i).entry r c = if r = i ∧ c < M.cols then 0 else M.entry r c := by
  unfold rowResetCM
  rw [resetLoopCM_eq, (fillLoopRM_spec i 0 M.cols 0 M).2 r c]
  by_cases h : r = i ∧ c < M.cols
  · rw [if_pos (by omega), if_pos h]
  · rw [if_neg (by omega), if_neg h]

theorem vecBlock4RM_step (op : α → α → α) (i : Nat) (src : Mat α → Nat → α)
    (W j k : Nat) (M : Mat α) :
    vecBlock4RM op i src W j (k+1) M =
      vecBlock4RM op i src W (j+4*W) k
        (chunkStoreOp op i src (j+3*W) W
          (chunkStoreOp op i src (j+2*W) W
            (chunkStoreOp op i src (j+W) W
              (chunkStoreOp op i src j W M)))) := rfl

theorem vecBlock4RM_rows (op : α → α → α) (i : Nat) (src : Mat α → Nat → α) (W : Nat) :
    ∀ k j M, (vecBlock4RM op i src W j k M).rows = M.rows := by
  intro k
  induction k with
  | zero => intro j M; rfl
  | succ w ih =>
    intro j M
    rw [vecBlock4RM_step, ih, chunkStoreOp_rows, chunkStoreOp_rows, chunkStoreOp_rows,
      chunkStoreOp_rows]

theorem vecBlock4RM_cols (op : α → α → α) (i : Nat) (src : Mat α → Nat → α) (W : Nat) :
    ∀ k j M, (vecBlock4RM op i src W j k M).cols = M.cols := by
  intro k
  induction k with
  | zero => intro j M; rfl
  | succ w ih =>
    intro j M
    rw [vecBlock4RM_step, ih, chunkStoreOp_cols, chunkStoreOp_cols, chunkStoreOp_cols,
      chunkStoreOp_cols]

theorem vecBlock4RM_entry (op : α → α → α) (i : Nat) (f : Nat → α) (W : Nat) :
    ∀ k j M r c, (vecBlock4RM op i (fun _ => f) W j k M).entry r c =
      if r = i ∧ j ≤ c ∧ c < j + 4*W*k then op (M.entry r c) (f c) else M.entry r c := by
  intro k
  induction k with
  | zero =>
    intro j M r c
    rw [show vecBlock4RM op i (fun _ => f) W j 0 M = M from rfl, if_neg (by omega)]
  | succ w ih =>
    intro j M r c
    rw [vecBlock4RM_step]
    have h0 : ∀ r c, M.entry r c =
        if r = i ∧ j ≤ c ∧ c < j then op (M.entry r c) (f c) else M.entry r c := by
      intro r c; rw [if_neg (by omega)]
    have h1 := chunk_cover_step op f W h0 (le_refl j)
    have h2 := chunk_cover_step op f W h1 (by omega)
    rw [show j + W + W = j + 2*W by ring] at h2
    have h3 := chunk_cover_step op f W h2 (by omega)
    rw [show j + 2*W + W = j + 3*W by ring] at h3
    have h4 := chunk_cover_step op f W h3 (by omega)
    rw [show j + 3*W + W = j + 4*W by ring] at h4
    have h5 := cover_merge op f h4 (fun r c => ih (j+4*W) _ r c) (by omega) (by omega)
    rw [show j + 4*W + 4*W*w = j + 4*W*(w+1) by ring] at h5
    exact h5 r c

theorem vecRemRM_rows (op : α → α → α) (i : Nat) (src : Mat α → Nat → α) (n W : Nat) :
    ∀ fuel j M, (vecRemRM op i src n W fuel j M).rows = M.rows := by
  intro fuel
  induction fuel with
  | zero => intro j M; rfl
  | succ fl ih =>
    intro j M
    simp only [vecRemRM]
    split
    · rw [ih, chunkStoreOp_rows]
    · rfl

theorem vecRemRM_cols (op : α → α → α) (i : Nat) (src : Mat α → Nat → α) (n W : Nat) :
    ∀ fuel j M, (vecRemRM op i src n W fuel j M).cols = M.cols := by
  intro fuel
  induction fuel with
  | zero => intro j M; rfl
  | succ fl ih =>
    intro j M
    simp only [vecRemRM]
    split
    · rw [ih, chunkStoreOp_cols]
    · rfl

theorem vecRemRM_entry (op : α → α → α) (i : Nat) (f : Nat → α) (n W : Nat) (hW : 0 < W) :
    ∀ fuel j M, n ≤ j + fuel →
      ∀ r c,
        ((r ≠ i ∨ c < j) →
          (vecRemRM op i (fun _ => f) n W fuel j M).entry r c = M.entry r c) ∧
        (r = i → j ≤ c → c < n →
          (vecRemRM op i (fun _ => f) n W fuel j M).entry r c = op (M.entry r c) (f c)) := by
  intro fuel
  induction fuel with
  | zero =>
    intro j M hn r c
    exact ⟨fun _ => rfl, fun _ hjc hcn => (show False by omega).elim⟩
  | succ fl ih =>
    intro j M hn r c
    simp only [vecRemRM]
    by_cases hj : j < n
    · rw [if_pos hj]
      have hrec := ih (j+W) (chunkStoreOp op i (fun _ => f) j W M) (by omega) r c
      constructor
      · intro hor
        have hor2 : r ≠ i ∨ c < j + W := by
          rcases hor with h | h
          · exact Or.inl h
          · exact Or.inr (by omega)
        rw [hrec.1 hor2, chunkStoreOp_entry, if_neg (by
          intro hcon
          rcases hor with h | h
          · exact h hcon.1
          · omega)]
      · intro hri hjc hcn
        by_cases hcw : c < j + W
        · rw [hrec.1 (Or.inr hcw), chunkStoreOp_entry, if_pos ⟨hri, hjc, hcw⟩]
        · rw [hrec.2 hri (by omega) hcn, chunkStoreOp_entry, if_neg (by omega)]
    · rw [if_neg hj]
      exact ⟨fun _ => rfl, fun _ hjc hcn => (show False by omega).elim⟩

theorem scalarKernelRM_def (op : α → α → α) (i : Nat) (src : Mat α → Nat → α)
    (n : Nat) (M : Mat α) :
    scalarKernelRM op i src n M =
      (if n - n % 2 < n then
        setEntry (binPairLoopRM op i src 0 ((n - n % 2)/2) M) i (n - n % 2)
          (op ((binPairLoopRM op i src 0 ((n - n % 2)/2) M).entry i (n - n % 2))
              (src (binPairLoopRM op i src 0 ((n - n % 2)/2) M) (n - n % 2)))
      else binPairLoopRM op i src 0 ((n - n % 2)/2) M) := rfl

theorem scalarKernelRM_spec (op : α → α → α) (i : Nat) (f : Nat → α) (n : Nat) (M : Mat α) :
    ((scalarKernelRM op i (fun _ => f) n M).rows = M.rows ∧
     (scalarKernelRM op i (fun _ => f) n M).cols = M.cols) ∧
    ∀ r c, (scalarKernelRM op i (fun _ => f) n M).entry r c =
      if r = i ∧ c < n then op (M.entry r c) (f c) else M.entry r c := by
  have e : 0 + 2 * ((n - n % 2)/2) = n - n % 2 := by omega
  rw [scalarKernelRM_def]
  split_ifs with hlt
  · refine ⟨⟨binPairLoopRM_rows op i (fun _ => f) ((n - n % 2)/2) 0 M,
      binPairLoopRM_cols op i (fun _ => f) ((n - n % 2)/2) 0 M⟩, fun r c => ?_⟩
    rw [setEntry_entry]
    by_cases hc : r = i ∧ c = n - n % 2
    · rw [if_pos hc, if_pos (show r = i ∧ c < n by omega), hc.1, hc.2]
      congr 1
      rw [binPairLoopRM_entry op i f ((n - n % 2)/2) 0 M i (n - n % 2), if_neg (by omega)]
    · rw [if_neg hc, binPairLoopRM_entry op i f ((n - n % 2)/2) 0 M r c]
      by_cases hcc : r = i ∧ 0 ≤ c ∧ c < 0 + 2 * ((n - n % 2)/2)
      · rw [if_pos hcc, if_pos (show r = i ∧ c < n by omega)]
      · rw [if_neg hcc, if_neg (show ¬(r = i ∧ c < n) by omega)]
  · refine ⟨⟨binPairLoopRM_rows op i (fun _ => f) ((n - n % 2)/2) 0 M,
      binPairLoopRM_cols op i (fun _ => f) ((n - n % 2)/2) 0 M⟩, fun r c => ?_⟩
    rw [binPairLoopRM_entry op i f ((n - n % 2)/2) 0 M r c]
    by_cases hcc : r = i ∧ 0 ≤ c ∧ c < 0 + 2 * ((n - n % 2)/2)
    · rw [if_pos hcc, if_pos (show r = i ∧ c < n by omega)]
    · rw [if_neg hcc, if_neg (show ¬(r = i ∧ c < n) by omega)]

theorem vecKernelRM_def (op : α → α → α) (cfg : KernelCfg) (M : Mat α) (i : Nat)
    (src : Mat α → Nat → α) (n : Nat) :
    vecKernelRM op cfg M i src n =
      vecRemRM op i src n cfg.W n (n - n % (cfg.W * 4))
        (vecBlock4RM op i src cfg.W 0 ((n - n % (cfg.W * 4)) / (cfg.W * 4)) M) := rfl

theorem vecKernelRM_spec (op : α → α → α) (cfg : KernelCfg) (i : Nat) (f : Nat → α)
    (n : Nat) (M : Mat α) :
    ((vecKernelRM op cfg M i (fun _ => f) n).rows = M.rows ∧
     (vecKernelRM op cfg M i (fun _ => f) n).cols = M.cols) ∧
    ∀ r c,
      (r ≠ i → (vecKernelRM op cfg M i (fun _ => f) n).entry r c = M.entry r c) ∧
      (r = i → c < n →
        (vecKernelRM op cfg M i (fun _ => f) n).entry r c = op (M.entry r c) (f c)) := by
  have hW := cfg.Wpos
  have hmd : n % (cfg.W * 4) + (cfg.W * 4) * (n / (cfg.W * 4)) = n :=
    Nat.mod_add_div n (cfg.W * 4)
  have hqpos : 0 < cfg.W * 4 := by omega
  have hjend : n - n % (cfg.W * 4) = (cfg.W * 4) * (n / (cfg.W * 4)) := by omega
  have hdiv : (n - n % (cfg.W * 4)) / (cfg.W * 4) = n / (cfg.W * 4) := by
    rw [hjend]
    exact Nat.mul_div_cancel_left _ hqpos
  have hbound : 0 + 4 * cfg.W * ((n - n % (cfg.W * 4)) / (cfg.W * 4)) = n - n % (cfg.W * 4) := by
    rw [hdiv, hjend]
    ring
  have hblock := vecBlock4RM_entry op i f cfg.W ((n - n % (cfg.W * 4)) / (cfg.W * 4)) 0 M
  rw [hbound] at hblock
  have hbrows := vecBlock4RM_rows op i (fun _ => f) cfg.W
    ((n - n % (cfg.W * 4)) / (cfg.W * 4)) 0 M
  have hbcols := vecBlock4RM_cols op i (fun _ => f) cfg.W
    ((n - n % (cfg.W * 4)) / (cfg.W * 4)) 0 M
  have hrem := vecRemRM_entry op i f n cfg.W hW n (n - n % (cfg.W * 4))
    (vecBlock4RM op i (fun _ => f) cfg.W 0 ((n - n % (cfg.W * 4)) / (cfg.W * 4)) M)
    (by omega)
  rw [vecKernelRM_def]
  refine ⟨⟨?_, ?_⟩, ?_⟩
  · rw [vecRemRM_rows, hbrows]
  · rw [vecRemRM_cols, hbcols]
  · intro r c
    constructor
    · intro hri
      rw [(hrem r c).1 (Or.inl hri), hblock r c, if_neg (fun h => hri h.1)]
    · intro hri hcn
      by_cases hcj : c < n - n % (cfg.W * 4)
      · rw [(hrem r c).1 (Or.inr hcj), hblock r c, if_pos ⟨hri, by omega, hcj⟩]
      · rw [(hrem r c).2 hri (by omega) hcn, hblock r c, if_neg (by omega)]

theorem assignVecRM_spec (cfg : KernelCfg) (M : Mat α) (i : Nat) (f : Nat → α)
    (n : Nat) (aliased : Bool) :
    ((assignVecRM cfg M i (fun _ => f) n aliased).rows = M.rows ∧
     (assignVecRM cfg M i (fun _ => f) n aliased).cols = M.cols) ∧
    ∀ r c,
      (r ≠ i → (assignVecRM cfg M i (fun _ => f) n aliased).entry r c = M.entry r c) ∧
      (r = i → c < n → (assignVecRM cfg M i (fun _ => f) n aliased).entry r c = f c) := by
  unfold assignVecRM
  split_ifs with hbr
  · have h := vecRemRM_entry (fun _ s => s) i f n cfg.W cfg.Wpos n 0 M (by omega)
    refine ⟨⟨vecRemRM_rows _ i _ n cfg.W n 0 M, vecRemRM_cols _ i _ n cfg.W n 0 M⟩,
      fun r c => ⟨fun hri => (h r c).1 (Or.inl hri),
        fun hri hcn => (h r c).2 hri (Nat.zero_le c) hcn⟩⟩
  · have h := vecKernelRM_spec (fun _ s => s) cfg i f n M
    exact ⟨h.1, fun r c => ⟨(h.2 r c).1, (h.2 r c).2⟩⟩

theorem assignDenseRM_spec (cfg : KernelCfg) (M : Mat α) (i : Nat) (f : Nat → α)
    (n : Nat) (aliased : Bool) :
    ((assignDenseRM cfg M i (fun _ => f) n aliased).rows = M.rows ∧
     (assignDenseRM cfg M i (fun _ => f) n aliased).cols = M.cols) ∧
    ∀ r c,
      (r ≠ i → (assignDenseRM cfg M i (fun _ => f) n aliased).entry r c = M.entry r c) ∧
      (r = i → c < n → (assignDenseRM cfg M i (fun _ => f) n aliased).entry r c = f c) := by
  unfold assignDenseRM
  split_ifs with hv
  · exact assignVecRM_spec cfg M i f n aliased
  · have h := scalarKernelRM_spec (fun _ s => s) i f n M
    refine ⟨h.1, fun r c => ⟨fun hri => ?_, fun hri hcn => ?_⟩⟩
    · rw [h.2 r c, if_neg (fun hh => hri hh.1)]
    · rw [h.2 r c, if_pos ⟨hri, hcn⟩]

theorem addAssignDenseRM_spec (cfg : KernelCfg) (M : Mat α) (i : Nat) (f : Nat → α)
    (n : Nat) :
    ((addAssignDenseRM cfg M i (fun _ => f) n).rows = M.rows ∧
     (addAssignDenseRM cfg M i (fun _ => f) n).cols = M.cols) ∧
    ∀ r c,
      (r ≠ i → (addAssignDenseRM cfg M i (fun _ => f) n).entry r c = M.entry r c) ∧
      (r = i → c < n →
        (addAssignDenseRM cfg M i (fun _ => f) n).entry r c = M.entry r c + f c) := by
  unfold addAssignDenseRM
  split_ifs with hv
  · exact vecKernelRM_spec (fun o s => o + s) cfg i f n M
  · have h := scalarKernelRM_spec (fun o s => o + s) i f n M
    refine ⟨h.1, fun r c => ⟨fun hri => ?_, fun hri hcn => ?_⟩⟩
    · rw [h.2 r c, if_neg (fun hh => hri hh.1)]
    · rw [h.2 r c, if_pos ⟨hri, hcn⟩]

theorem subAssignDenseRM_spec (cfg : KernelCfg) (M : Mat α) (i : Nat) (f : Nat → α)
    (n : Nat) :
    ((subAssignDenseRM cfg M i (fun _ => f) n).rows = M.rows ∧
     (subAssignDenseRM cfg M i (fun _ => f) n).cols = M.cols) ∧
    ∀ r c,
      (r ≠ i → (subAssignDenseRM cfg M i (fun _ => f) n).entry r c = M.entry r c) ∧
      (r = i → c < n →
        (subAssignDenseRM cfg M i (fun _ => f) n).entry r c = M.entry r c - f c) := by
  unfold subAssignDenseRM
  split_ifs with hv
  · exact vecKernelRM_spec (fun o s => o - s) cfg i f n M
  · have h := scalarKernelRM_spec (fun o s => o - s) i f n M
    refine ⟨h.1, fun r c => ⟨fun hri => ?_, fun hri hcn => ?_⟩⟩
    · rw [h.2 r c, if_neg (fun hh => hri hh.1)]
    · rw [h.2 r c, if_pos ⟨hri, hcn⟩]

theorem multAssignDenseRM_spec (cfg : KernelCfg) (M : Mat α) (i : Nat) (f : Nat → α)
    (n : Nat) :
    ((multAssignDenseRM cfg M i (fun _ => f) n).rows = M.rows ∧
     (multAssignDenseRM cfg M i (fun _ => f) n).cols = M.cols) ∧
    ∀ r c,
      (r ≠ i → (multAssignDenseRM cfg M i (fun _ => f) n).entry r c = M.entry r c) ∧
      (r = i → c < n →
        (multAssignDenseRM cfg M i (fun _ => f) n).entry r c = M.entry r c * f c) := by
  unfold multAssignDenseRM
  split_ifs with hv
  · exact vecKernelRM_spec (fun o s => o * s) cfg i f n M
  · have h := scalarKernelRM_spec (fun o s => o * s) i f n M
    refine ⟨h.1, fun r c => ⟨fun hri => ?_, fun hri hcn => ?_⟩⟩
    · rw [h.2 r c, if_neg (fun hh => hri hh.1)]
    · rw [h.2 r c, if_pos ⟨hri, hcn⟩]

theorem binPairLoopCM_step (op : α → α → α) (i : Nat) (src : Mat α → Nat → α)
    (j k : Nat) (M : Mat α) :
    binPairLoopCM op i src j (k+1) M =
      binPairLoopCM op i src (j+2) k
        (setEntry (setEntry M i j (op (M.entry i j) (src M j))) i (j+1)
          (op ((setEntry M i j (op (M.entry i j) (src M j))).entry i (j+1))
              (src (setEntry M i j (op (M.entry i j) (src M j))) (j+1)))) := rfl

theorem binPairLoopCM_eq (op : α → α → α) (i : Nat) (src : Mat α → Nat → α) :
    ∀ k j M, binPairLoopCM op i src j k M = binPairLoopRM op i src j k M := by
  intro k
  induction k with
  | zero => intro j M; rfl
  | succ w ih => intro j M; rw [binPairLoopCM_step, binPairLoopRM_step, ih]

theorem scalarKernelCM_def (op : α → α → α) (i : Nat) (src : Mat α → Nat → α)
    (n : Nat) (M : Mat α) :
    scalarKernelCM op i src n M =
      (if n - n % 2 < n then
        setEntry (binPairLoopCM op i src 0 ((n - n % 2)/2) M) i (n - n % 2)
          (op ((binPairLoopCM op i src 0 ((n - n % 2)/2) M).entry i (n - n % 2))
              (src (binPairLoopCM op i src 0 ((n - n % 2)/2) M) (n - n % 2)))
      else binPairLoopCM op i src 0 ((n - n % 2)/2) M) := rfl

theorem scalarKernelCM_eq (op : α → α → α) (i : Nat) (src : Mat α → Nat → α)
    (n : Nat) (M : Mat α) :
    scalarKernelCM op i src n M = scalarKernelRM op i src n M := by
  rw [scalarKernelCM_def, scalarKernelRM_def, binPairLoopCM_eq]

theorem scatterFoldCM_eq (i : Nat) (F : Mat α → Nat × α → α) (M : Mat α)
    (s : List (Nat × α)) : scatterFoldCM i F M s = scatterFoldRM i F M s := rfl

theorem scatterFoldRM_rows (i : Nat) (F : Mat α → Nat × α → α) :
    ∀ s M, (scatterFoldRM i F M s).rows = M.rows := by
  intro s
  induction s with
  | nil => intro M; rfl
  | cons p t ih => intro M; exact ih (setEntry M i p.1 (F M p))

theorem scatterFoldRM_cols (i : Nat) (F : Mat α → Nat × α → α) :
    ∀ s M, (scatterFoldRM i F M s).cols = M.cols := by
  intro s
  induction s with
  | nil => intro M; rfl
  | cons p t ih => intro M; exact ih (setEntry M i p.1 (F M p))

theorem scatterFoldRM_spec (i : Nat) (F : Mat α → Nat × α → α)
    (hF : ∀ M N p, M.entry i p.1 = N.entry i p.1 → F M p = F N p) :
    ∀ s M, List.Pairwise (fun p q : Nat × α => p.1 < q.1) s →
      (∀ r c, r ≠ i → (scatterFoldRM i F M s).entry r c = M.entry r c) ∧
      (∀ c, c ∉ s.map Prod.fst → (scatterFoldRM i F M s).entry i c = M.entry i c) ∧
      (∀ p ∈ s, (scatterFoldRM i F M s).entry i p.1 = F M p) := by
  intro s
  induction s with
  | nil =>
    intro M _
    exact ⟨fun _ _ _ => rfl, fun _ _ => rfl, fun p hp => absurd hp (List.not_mem_nil p)⟩
  | cons p t ih =>
    intro M hpw
    obtain ⟨hhead, htail⟩ := List.pairwise_cons.mp hpw
    have hstep : scatterFoldRM i F M (p :: t) =
      scatterFoldRM i F (setEntry M i p.1 (F M p)) t := rfl
    obtain ⟨ih1, ih2, ih3⟩ := ih (setEntry M i p.1 (F M p)) htail
    refine ⟨?_, ?_, ?_⟩
    · intro r c hri
      rw [hstep, ih1 r c hri, setEntry_entry, if_neg (fun h => hri h.1)]
    · intro c hc
      have hcp : ¬(c = p.1) := fun h => hc (by
        rw [h]
        exact List.mem_cons_self _ _)
      have hct : c ∉ t.map Prod.fst := fun h => hc (List.mem_cons_of_mem _ h)
      rw [hstep, ih2 c hct, setEntry_entry]
      have : ¬((i : Nat) = i ∧ c = p.1) := fun h => hcp h.2
      rw [if_neg this]
    · intro q hq
      rcases List.mem_cons.mp hq with hq1 | hq2
      · subst hq1
        have hnp : q.1 ∉ t.map Prod.fst := by
          intro hmem
          obtain ⟨q2, hq2, hfst⟩ := List.mem_map.mp hmem
          have := hhead q2 hq2
          omega
        rw [hstep, ih2 q.1 hnp, setEntry_entry, if_pos ⟨rfl, rfl⟩]
      · rw [hstep, ih3 q hq2]
        refine hF _ _ q ?_
        rw [setEntry_entry]
        have hlt := hhead q hq2
        rw [if_neg (fun h => by omega)]

theorem multAssignSparseRM_def (M : Mat α) (i : Nat) (s : List (Nat × α)) :
    multAssignSparseRM M i s =
      scatterFoldRM i (fun _ p => M.entry i p.1 * p.2) (rowResetRM M i) s := rfl

theorem multAssignSparseCM_def (M : Mat α) (i : Nat) (s : List (Nat × α)) :
    multAssignSparseCM M i s =
      scatterFoldCM i (fun _ p => M.entry i p.1 * p.2) (rowResetCM M i) s := rfl

theorem lookupSparse_not_mem (s : List (Nat × α)) (j : Nat) (h : j ∉ s.map Prod.fst) :
    lookupSparse s j = 0 := by
  induction s with
  | nil => rfl
  | cons p t ih =>
    rw [show lookupSparse (p :: t) j = if p.1 = j then p.2 else lookupSparse t j from rfl]
    rw [if_neg (fun he => h (by rw [← he]; exact List.mem_cons_self _ _)),
      ih (fun hm => h (List.mem_cons_of_mem _ hm))]

theorem lookupSparse_mem :
    ∀ s : List (Nat × α), List.Pairwise (fun p q : Nat × α => p.1 < q.1) s →
      ∀ p ∈ s, lookupSparse s p.1 = p.2 := by
  intro s
  induction s with
  | nil => intro _ p hp; exact absurd hp (List.not_mem_nil p)
  | cons q t ih =>
    intro hpw p hp
    obtain ⟨hhead, htail⟩ := List.pairwise_cons.mp hpw
    rcases List.mem_cons.mp hp with h1 | h2
    · subst h1
      rw [show lookupSparse (p :: t) p.1 =
        if p.1 = p.1 then p.2 else lookupSparse t p.1 from rfl, if_pos rfl]
    · rw [show lookupSparse (q :: t) p.1 =
        if q.1 = p.1 then q.2 else lookupSparse t p.1 from rfl]
      have := hhead p h2
      rw [if_neg (by omega), ih htail p h2]

theorem nonZerosLoopCM_eq [DecidableEq α] (M : Mat α) (i : Nat) :
    ∀ k, nonZerosLoopCM M i k =
      (List.range k).countP (fun j => decide (¬ M.entry i j = 0)) := by
  intro k
  induction k with
  | zero => rfl
  | succ w ih =>
    rw [show nonZerosLoopCM M i (w+1) =
      nonZerosLoopCM M i w + (if M.entry i w = 0 then 0 else 1) from rfl]
    rw [ih, List.range_succ, List.countP_append]
    by_cases hz : M.entry i w = 0
    · rw [if_pos hz]
      simp [List.countP_cons, hz]
    · rw [if_neg hz]
      simp [List.countP_cons, hz]

/-! Branch-selection lemmas for the eight operator entry points. -/

theorem opAssignRM_err (cfg : KernelCfg) (M : Mat α) (i : Nat) (e : VecExpr α)
    (h : M.cols ≠ e.n) : opAssignRM cfg M i e = Except.error BlazeError.sizeMismatch := by
  unfold opAssignRM
  rw [if_pos h]

theorem opAddAssignRM_err (cfg : KernelCfg) (M : Mat α) (i : Nat) (e : VecExpr α)
    (h : M.cols ≠ e.n) : opAddAssignRM cfg M i e = Except.error BlazeError.sizeMismatch := by
  unfold opAddAssignRM
  rw [if_pos h]

theorem opSubAssignRM_err (cfg : KernelCfg) (M : Mat α) (i : Nat) (e : VecExpr α)
    (h : M.cols ≠ e.n) : opSubAssignRM cfg M i e = Except.error BlazeError.sizeMismatch := by
  unfold opSubAssignRM
  rw [if_pos h]

theorem opMultAssignRM_err (cfg : KernelCfg) (M : Mat α) (i : Nat) (e : VecExpr α)
    (h : M.cols ≠ e.n) : opMultAssignRM cfg M i e = Except.error BlazeError.sizeMismatch := by
  unfold opMultAssignRM
  rw [if_pos h]

theorem opAssignCM_err (M : Mat α) (i : Nat) (e : VecExpr α)
    (h : M.cols ≠ e.n) : opAssignCM M i e = Except.error BlazeError.sizeMismatch := by
  unfold opAssignCM
  rw [if_pos h]

theorem opAddAssignCM_err (M : Mat α) (i : Nat) (e : VecExpr α)
    (h : M.cols ≠ e.n) : opAddAssignCM M i e = Except.error BlazeError.sizeMismatch := by
  unfold opAddAssignCM
  rw [if_pos h]

theorem opSubAssignCM_err (M : Mat α) (i : Nat) (e : VecExpr α)
    (h : M.cols ≠ e.n) : opSubAssignCM M i e = Except.error BlazeError.sizeMismatch := by
  unfold opSubAssignCM
  rw [if_pos h]

theorem opMultAssignCM_err (M : Mat α) (i : Nat) (e : VecExpr α)
    (h : M.cols ≠ e.n) : opMultAssignCM M i e = Except.error BlazeError.sizeMismatch := by
  unfold opMultAssignCM
  rw [if_pos h]

theorem opAssignRM_dense_noalias (cfg : KernelCfg) (M : Mat α) (i : Nat) (e : VecExpr α)
    (hn : M.cols = e.n) (hca : e.canAliasM = false) (hsp : e.sparse = false) :
    opAssignRM cfg M i e =
      Except.ok (assignDenseRM cfg M i e.evalD e.n e.isAliasedM) := by
  unfold opAssignRM
  rw [if_neg (fun h => h hn), if_neg (by simp [hca]), if_neg (by simp [hsp])]

theorem opAssignRM_dense_alias (cfg : KernelCfg) (M : Mat α) (i : Nat) (e : VecExpr α)
    (hn : M.cols = e.n) (hca : e.canAliasM = true) (hsp : e.sparse = false) :
    opAssignRM cfg M i e =
      Except.ok (assignDenseRM cfg M i (fun _ => e.evalD M) e.n false) := by
  unfold opAssignRM
  rw [if_neg (fun h => h hn), if_pos hca, if_neg (by simp [hsp])]

theorem opAssignRM_sparse_alias (cfg : KernelCfg) (M : Mat α) (i : Nat) (e : VecExpr α)
    (hn : M.cols = e.n) (hca : e.canAliasM = true) (hsp : e.sparse = true) :
    opAssignRM cfg M i e = Except.ok (assignSparseRM M i (e.evalS M)) := by
  unfold opAssignRM
  rw [if_neg (fun h => h hn), if_pos hca, if_pos hsp]

theorem opAssignRM_sparse_noalias (cfg : KernelCfg) (M : Mat α) (i : Nat) (e : VecExpr α)
    (hn : M.cols = e.n) (hca : e.canAliasM = false) (hsp : e.sparse = true) :
    opAssignRM cfg M i e =
      Except.ok (assignSparseRM (rowResetRM M i) i (e.evalS (rowResetRM M i))) := by
  unfold opAssignRM
  rw [if_neg (fun h => h hn), if_neg (by simp [hca]), if_pos hsp]

theorem opAddAssignRM_dense_noalias (cfg : KernelCfg) (M : Mat α) (i : Nat) (e : VecExpr α)
    (hn : M.cols = e.n) (hca : e.canAliasM = false) (hsp : e.sparse = false) :
    opAddAssignRM cfg M i e = Except.ok (addAssignDenseRM cfg M i e.evalD e.n) := by
  unfold opAddAssignRM
  rw [if_neg (fun h => h hn), if_neg (by simp [hca]), if_neg (by simp [hsp])]

theorem opAddAssignRM_dense_alias (cfg : KernelCfg) (M : Mat α) (i : Nat) (e : VecExpr α)
    (hn : M.cols = e.n) (hca : e.canAliasM = true) (hsp : e.sparse = false) :
    opAddAssignRM cfg M i e =
      Except.ok (addAssignDenseRM cfg M i (fun _ => e.evalD M) e.n) := by
  unfold opAddAssignRM
  rw [if_neg (fun h => h hn), if_pos hca, if_neg (by simp [hsp])]

theorem opAddAssignRM_sparse (cfg : KernelCfg) (M : Mat α) (i : Nat) (e : VecExpr α)
    (hn : M.cols = e.n) (hsp : e.sparse = true) :
    opAddAssignRM cfg M i e = Except.ok (addAssignSparseRM M i (e.evalS M)) := by
  unfold opAddAssignRM
  rw [if_neg (fun h => h hn)]
  by_cases hca : e.canAliasM = true
  · rw [if_pos hca, if_pos hsp]
  · rw [if_neg hca, if_pos hsp]

theorem opSubAssignRM_dense_noalias (cfg : KernelCfg) (M : Mat α) (i : Nat) (e : VecExpr α)
    (hn : M.cols = e.n) (hca : e.canAliasM = false) (hsp : e.sparse = false) :
    opSubAssignRM cfg M i e = Except.ok (subAssignDenseRM cfg M i e.evalD e.n) := by
  unfold opSubAssignRM
  rw [if_neg (fun h => h hn), if_neg (by simp [hca]), if_neg (by simp [hsp])]

theorem opSubAssignRM_dense_alias (cfg : KernelCfg) (M : Mat α) (i : Nat) (e : VecExpr α)
    (hn : M.cols = e.n) (hca : e.canAliasM = true) (hsp : e.sparse = false) :
    opSubAssignRM cfg M i e =
      Except.ok (subAssignDenseRM cfg M i (fun _ => e.evalD M) e.n) := by
  unfold opSubAssignRM
  rw [if_neg (fun h => h hn), if_pos hca, if_neg (by simp [hsp])]

theorem opSubAssignRM_sparse (cfg : KernelCfg) (M : Mat α) (i : Nat) (e : VecExpr α)
    (hn : M.cols = e.n) (hsp : e.sparse = true) :
    opSubAssignRM cfg M i e = Except.ok (subAssignSparseRM M i (e.evalS M)) := by
  unfold opSubAssignRM
  rw [if_neg (fun h => h hn)]
  by_cases hca : e.canAliasM = true
  · rw [if_pos hca, if_pos hsp]
  · rw [if_neg hca, if_pos hsp]

theorem opMultAssignRM_dense_noalias (cfg : KernelCfg) (M : Mat α) (i : Nat) (e : VecExpr α)
    (hn : M.cols = e.n) (hca : e.canAliasM = false) (hsp : e.sparse = false) :
    opMultAssignRM cfg M i e = Except.ok (multAssignDenseRM cfg M i e.evalD e.n) := by
  unfold opMultAssignRM
  rw [if_neg (fun h => h hn), if_neg (by simp [hca, hsp])]

theorem opMultAssignRM_dense_alias (cfg : KernelCfg) (M : Mat α) (i : Nat) (e : VecExpr α)
    (hn : M.cols = e.n) (hca : e.canAliasM = true) (hsp : e.sparse = false) :
    opMultAssignRM cfg M i e =
      Except.ok (multAssignDenseRM cfg M i (fun _ => e.evalD M) e.n) := by
  unfold opMultAssignRM
  rw [if_neg (fun h => h hn), if_pos (Or.inl hca), if_neg (by simp [hsp])]

theorem opMultAssignRM_sparse (cfg : KernelCfg) (M : Mat α) (i : Nat) (e : VecExpr α)
    (hn : M.cols = e.n) (hsp : e.sparse = true) :
    opMultAssignRM cfg M i e = Except.ok (multAssignSparseRM M i (e.evalS M)) := by
  unfold opMultAssignRM
  rw [if_neg (fun h => h hn), if_pos (Or.inr hsp), if_pos hsp]

theorem opAssignCM_alias (M : Mat α) (i : Nat) (e : VecExpr α)
    (hn : M.cols = e.n) (hca : e.canAliasM = true) :
    opAssignCM M i e =
      Except.ok (scalarKernelCM (fun _ s => s) i (fun _ => densify M e) e.n M) := by
  unfold opAssignCM
  rw [if_neg (fun h => h hn), if_pos hca]

theorem opAssignCM_dense_noalias (M : Mat α) (i : Nat) (e : VecExpr α)
    (hn : M.cols = e.n) (hca : e.canAliasM = false) (hsp : e.sparse = false) :
    opAssignCM M i e = Except.ok (scalarKernelCM (fun _ s => s) i e.evalD e.n M) := by
  unfold opAssignCM
  rw [if_neg (fun h => h hn), if_neg (by simp [hca]), if_neg (by simp [hsp])]

theorem opAssignCM_sparse_noalias (M : Mat α) (i : Nat) (e : VecExpr α)
    (hn : M.cols = e.n) (hca : e.canAliasM = false) (hsp : e.sparse = true) :
    opAssignCM M i e =
      Except.ok (assignSparseCM (rowResetCM M i) i (e.evalS (rowResetCM M i))) := by
  unfold opAssignCM
  rw [if_neg (fun h => h hn), if_neg (by simp [hca]), if_pos hsp]

theorem opAddAssignCM_dense (M : Mat α) (i : Nat) (e : VecExpr α)
    (hn : M.cols = e.n) (hca : e.canAliasM = false) (hsp : e.sparse = false) :
    opAddAssignCM M i e = Except.ok (scalarKernelCM (fun o s => o + s) i e.evalD e.n M) := by
  unfold opAddAssignCM
  rw [if_neg (fun h => h hn), if_neg (by simp [hca]), if_neg (by simp [hsp])]

theorem opAddAssignCM_dense_alias (M : Mat α) (i : Nat) (e : VecExpr α)
    (hn : M.cols = e.n) (hca : e.canAliasM = true) (hsp : e.sparse = false) :
    opAddAssignCM M i e =
      Except.ok (scalarKernelCM (fun o s => o + s) i (fun _ => e.evalD M) e.n M) := by
  unfold opAddAssignCM
  rw [if_neg (fun h => h hn), if_pos hca, if_neg (by simp [hsp])]

theorem opAddAssignCM_sparse (M : Mat α) (i : Nat) (e : VecExpr α)
    (hn : M.cols = e.n) (hsp : e.sparse = true) :
    opAddAssignCM M i e = Except.ok (addAssignSparseCM M i (e.evalS M)) := by
  unfold opAddAssignCM
  rw [if_neg (fun h => h hn)]
  by_cases hca : e.canAliasM = true
  · rw [if_pos hca, if_pos hsp]
  · rw [if_neg hca, if_pos hsp]

theorem opSubAssignCM_dense (M : Mat α) (i : Nat) (e : VecExpr α)
    (hn : M.cols = e.n) (hca : e.canAliasM = false) (hsp : e.sparse = false) :
    opSubAssignCM M i e = Except.ok (scalarKernelCM (fun o s => o - s) i e.evalD e.n M) := by
  unfold opSubAssignCM
  rw [if_neg (fun h => h hn), if_neg (by simp [hca]), if_neg (by simp [hsp])]

theorem opSubAssignCM_dense_alias (M : Mat α) (i : Nat) (e : VecExpr α)
    (hn : M.cols = e.n) (hca : e.canAliasM = true) (hsp : e.sparse = false) :
    opSubAssignCM M i e =
      Except.ok (scalarKernelCM (fun o s => o - s) i (fun _ => e.evalD M) e.n M) := by
  unfold opSubAssignCM
  rw [if_neg (fun h => h hn), if_pos hca, if_neg (by simp [hsp])]

theorem opSubAssignCM_sparse (M : Mat α) (i : Nat) (e : VecExpr α)
    (hn : M.cols = e.n) (hsp : e.sparse = true) :
    opSubAssignCM M i e = Except.ok (subAssignSparseCM M i (e.evalS M)) := by
  unfold opSubAssignCM
  rw [if_neg (fun h => h hn)]
  by_cases hca : e.canAliasM = true
  · rw [if_pos hca, if_pos hsp]
  · rw [if_neg hca, if_pos hsp]

theorem opMultAssignCM_dense_noalias (M : Mat α) (i : Nat) (e : VecExpr α)
    (hn : M.cols = e.n) (hca : e.canAliasM = false) (hsp : e.sparse = false) :
    opMultAssignCM M i e = Except.ok (scalarKernelCM (fun o s => o * s) i e.evalD e.n M) := by
  unfold opMultAssignCM
  rw [if_neg (fun h => h hn), if_neg (by simp [hca, hsp])]

theorem opMultAssignCM_dense_alias (M : Mat α) (i : Nat) (e : VecExpr α)
    (hn : M.cols = e.n) (hca : e.canAliasM = true) (hsp : e.sparse = false) :
    opMultAssignCM M i e =
      Except.ok (scalarKernelCM (fun o s => o * s) i (fun _ => e.evalD M) e.n M) := by
  unfold opMultAssignCM
  rw [if_neg (fun h => h hn), if_pos (Or.inl hca), if_neg (by simp [hsp])]

theorem opMultAssignCM_sparse (M : Mat α) (i : Nat) (e : VecExpr α)
    (hn : M.cols = e.n) (hsp : e.sparse = true) :
    opMultAssignCM M i e = Except.ok (multAssignSparseCM M i (e.evalS M)) := by
  unfold opMultAssignCM
  rw [if_neg (fun h => h hn), if_pos (Or.inr hsp), if_pos hsp]

/-! Packaged descriptions of the four sparse kernels. -/

theorem assignSparseRM_spec (M : Mat α) (i : Nat) (s : List (Nat × α))
    (hpw : List.Pairwise (fun p q : Nat × α => p.1 < q.1) s) :
    ((assignSparseRM M i s).rows = M.rows ∧ (assignSparseRM M i s).cols = M.cols) ∧
    (∀ r c, r ≠ i → (assignSparseRM M i s).entry r c = M.entry r c) ∧
    (∀ c, c ∉ s.map Prod.fst → (assignSparseRM M i s).entry i c = M.entry i c) ∧
    (∀ p ∈ s, (assignSparseRM M i s).entry i p.1 = p.2) :=
  ⟨⟨scatterFoldRM_rows i _ s M, scatterFoldRM_cols i _ s M⟩,
    scatterFoldRM_spec i (fun _ p => p.2) (fun _ _ _ _ => rfl) s M hpw⟩

theorem addAssignSparseRM_spec (M : Mat α) (i : Nat) (s : List (Nat × α))
    (hpw : List.Pairwise (fun p q : Nat × α => p.1 < q.1) s) :
    ((addAssignSparseRM M i s).rows = M.rows ∧ (addAssignSparseRM M i s).cols = M.cols) ∧
    (∀ r c, r ≠ i → (addAssignSparseRM M i s).entry r c = M.entry r c) ∧
    (∀ c, c ∉ s.map Prod.fst → (addAssignSparseRM M i s).entry i c = M.entry i c) ∧
    (∀ p ∈ s, (addAssignSparseRM M i s).entry i p.1 = M.entry i p.1 + p.2) :=
  ⟨⟨scatterFoldRM_rows i _ s M, scatterFoldRM_cols i _ s M⟩,
    scatterFoldRM_spec i (fun Mc p => Mc.entry i p.1 + p.2)
      (fun Ma Nb p hh => by
        show Ma.entry i p.1 + p.2 = Nb.entry i p.1 + p.2
        rw [hh]) s M hpw⟩

theorem subAssignSparseRM_spec (M : Mat α) (i : Nat) (s : List (Nat × α))
    (hpw : List.Pairwise (fun p q : Nat × α => p.1 < q.1) s) :
    ((subAssignSparseRM M i s).rows = M.rows ∧ (subAssignSparseRM M i s).cols = M.cols) ∧
    (∀ r c, r ≠ i → (subAssignSparseRM M i s).entry r c = M.entry r c) ∧
    (∀ c, c ∉ s.map Prod.fst → (subAssignSparseRM M i s).entry i c = M.entry i c) ∧
    (∀ p ∈ s, (subAssignSparseRM M i s).entry i p.1 = M.entry i p.1 - p.2) :=
  ⟨⟨scatterFoldRM_rows i _ s M, scatterFoldRM_cols i _ s M⟩,
    scatterFoldRM_spec i (fun Mc p => Mc.entry i p.1 - p.2)
      (fun Ma Nb p hh => by
        show Ma.entry i p.1 - p.2 = Nb.entry i p.1 - p.2
        rw [hh]) s M hpw⟩

theorem multAssignSparseRM_spec (M : Mat α) (i : Nat) (s : List (Nat × α))
    (hpw : List.Pairwise (fun p q : Nat × α => p.1 < q.1) s) :
    ((multAssignSparseRM M i s).rows = M.rows ∧
     (multAssignSparseRM M i s).cols = M.cols) ∧
    (∀ r c, r ≠ i → (multAssignSparseRM M i s).entry r c = M.entry r c) ∧
    (∀ c, c < M.cols → c ∉ s.map Prod.fst → (multAssignSparseRM M i s).entry i c = 0) ∧
    (∀ p ∈ s, (multAssignSparseRM M i s).entry i p.1 = M.entry i p.1 * p.2) := by
  obtain ⟨h1, h2, h3⟩ := scatterFoldRM_spec i (fun _ p => M.entry i p.1 * p.2)
    (fun _ _ _ _ => rfl) s (rowResetRM M i) hpw
  rw [multAssignSparseRM_def]
  refine ⟨⟨?_, ?_⟩, fun r c hri => ?_, fun c hcc hcm => ?_, h3⟩
  · rw [scatterFoldRM_rows, rowResetRM_rows]
  · rw [scatterFoldRM_cols, rowResetRM_cols]
  · rw [h1 r c hri, rowResetRM_entry, if_neg (fun hh => hri hh.1)]
  · rw [h2 c hcm, rowResetRM_entry, if_pos ⟨rfl, hcc⟩]

/-- LogicEq of two kernel results built from their frame descriptions and
agreement on the written row. -/
theorem logicEq_of_specs {Mrm Mcm Nrm Ncm : Mat α} (h : LogicEq Mrm Mcm) (i : Nat)
    (hrmr : Nrm.rows = Mrm.rows) (hrmc : Nrm.cols = Mrm.cols)
    (hcmr : Ncm.rows = Mcm.rows) (hcmc : Ncm.cols = Mcm.cols)
    (hrmo : ∀ r c, r ≠ i → Nrm.entry r c = Mrm.entry r c)
    (hcmo : ∀ r c, r ≠ i → Ncm.entry r c = Mcm.entry r c)
    (hrow : ∀ c, c < Mrm.cols → Nrm.entry i c = Ncm.entry i c) :
    LogicEq Nrm Ncm := by
  obtain ⟨hr, hc, he⟩ := h
  refine ⟨by omega, by omega, ?_⟩
  intro r c hrn hcn
  by_cases hri : r = i
  · subst hri
    exact hrow c (by omega)
  · rw [hrmo r c hri, hcmo r c hri]
    exact he r c (by omega) (by omega)

theorem exceptLogicEq_ok {A B : Mat α} (h : LogicEq A B) :
    ExceptLogicEq (Except.ok A) (Except.ok B) := h

theorem exceptLogicEq_err {e1 e2 : BlazeError} (h : e1 = e2) :
    ExceptLogicEq (α := α) (Except.error e1) (Except.error e2) := h

theorem scalarKernelCM_spec (op : α → α → α) (i : Nat) (f : Nat → α) (n : Nat) (M : Mat α) :
    ((scalarKernelCM op i (fun _ => f) n M).rows = M.rows ∧
     (scalarKernelCM op i (fun _ => f) n M).cols = M.cols) ∧
    ∀ r c, (scalarKernelCM op i (fun _ => f) n M).entry r c =
      if r = i ∧ c < n then op (M.entry r c) (f c) else M.entry r c := by
  rw [scalarKernelCM_eq]
  exact scalarKernelRM_spec op i f n M

theorem assignSparseCM_eq (M : Mat α) (i : Nat) (s : List (Nat × α)) :
    assignSparseCM M i s = assignSparseRM M i s := rfl

theorem addAssignSparseCM_eq (M : Mat α) (i : Nat) (s : List (Nat × α)) :
    addAssignSparseCM M i s = addAssignSparseRM M i s := rfl

theorem subAssignSparseCM_eq (M : Mat α) (i : Nat) (s : List (Nat × α)) :
    subAssignSparseCM M i s = subAssignSparseRM M i s := rfl

theorem multAssignSparseCM_spec (M : Mat α) (i : Nat) (s : List (Nat × α))
    (hpw : List.Pairwise (fun p q : Nat × α => p.1 < q.1) s) :
    ((multAssignSparseCM M i s).rows = M.rows ∧
     (multAssignSparseCM M i s).cols = M.cols) ∧
    (∀ r c, r ≠ i → (multAssignSparseCM M i s).entry r c = M.entry r c) ∧
    (∀ c, c < M.cols → c ∉ s.map Prod.fst → (multAssignSparseCM M i s).entry i c = 0) ∧
    (∀ p ∈ s, (multAssignSparseCM M i s).entry i p.1 = M.entry i p.1 * p.2) := by
  obtain ⟨h1, h2, h3⟩ := scatterFoldRM_spec i (fun _ p => M.entry i p.1 * p.2)
    (fun _ _ _ _ => rfl) s (rowResetCM M i) hpw
  rw [multAssignSparseCM_def, scatterFoldCM_eq]
  refine ⟨⟨?_, ?_⟩, fun r c hri => ?_, fun c hcc hcm => ?_, h3⟩
  · rw [scatterFoldRM_rows, rowResetCM_rows]
  · rw [scatterFoldRM_cols, rowResetCM_cols]
  · rw [h1 r c hri, rowResetCM_entry, if_neg (fun hh => hri hh.1)]
  · rw [h2 c hcm, rowResetCM_entry, if_pos ⟨rfl, hcc⟩]

end Lemmas

/-! ## Claim theorems -/

section Claims

variable {α : Type} [Zero α] [Add α] [Sub α] [Mul α]

/-- C5: constructing a row view, directly or through the row() factory,
fails with the out-of-range error exactly when index >= matrix.rows();
index = rows-1 succeeds for a non-empty matrix; a failed construction
creates no view state (the error outcome carries none) and, the embedding
being functional, the matrix is untouched.  Both specializations perform
the same check. -/
theorem c5_construction_bounds (M : Mat α) (index : Nat) :
    (row M index = mkDenseRowRM M index) ∧
    (mkDenseRowCM M index = mkDenseRowRM M index) ∧
    (M.rows ≤ index → mkDenseRowRM M index = Except.error BlazeError.invalidRowAccess) ∧
    (index < M.rows → mkDenseRowRM M index = Except.ok (M, index)) ∧
    (0 < M.rows → mkDenseRowRM M (M.rows - 1) = Except.ok (M, M.rows - 1)) := by
  refine ⟨rfl, rfl, ?_, ?_, ?_⟩
  · intro h
    unfold mkDenseRowRM
    rw [if_pos h]
  · intro h
    unfold mkDenseRowRM
    rw [if_neg (by omega)]
  · intro h
    unfold mkDenseRowRM
    rw [if_neg (by omega)]

/-- Witness for C5 at the concrete matrix M0 (1 row): index 0 = rows-1
succeeds, index 3 >= rows fails. -/
theorem c5_construction_bounds_witness :
    (0 < M0.rows ∧ mkDenseRowRM M0 (M0.rows - 1) = Except.ok (M0, M0.rows - 1)) ∧
    (M0.rows ≤ 3 ∧ mkDenseRowRM M0 3 = Except.error BlazeError.invalidRowAccess) :=
  ⟨⟨by decide, (c5_construction_bounds M0 0).2.2.2.2 (by decide)⟩,
   ⟨by decide, (c5_construction_bounds M0 3).2.2.1 (by decide)⟩⟩

/-- C7: canAlias and isAliased return the same boolean for every queried
address, and that boolean is true exactly when the address is the address
of the matrix object the view references; this holds in both
specializations. -/
theorem c7_canAlias_isAliased_equiv (matrixAddr aliasAddr : Nat) :
    (canAliasRM matrixAddr aliasAddr = isAliasedRM matrixAddr aliasAddr) ∧
    (canAliasRM matrixAddr aliasAddr = true ↔ aliasAddr = matrixAddr) ∧
    (canAliasCM matrixAddr aliasAddr = isAliasedCM matrixAddr aliasAddr) ∧
    (canAliasCM matrixAddr aliasAddr = true ↔ aliasAddr = matrixAddr) := by
  refine ⟨rfl, ?_, rfl, ?_⟩
  · unfold canAliasRM
    rw [beq_iff_eq]
    exact eq_comm
  · unfold canAliasCM
    rw [beq_iff_eq]
    exact eq_comm

/-- Witness for C7 at concrete addresses 5 and 5, and the canAlias value
at distinct addresses. -/
theorem c7_canAlias_isAliased_equiv_witness :
    (canAliasRM 5 5 = isAliasedRM 5 5) ∧ (canAliasRM 5 5 = true ↔ (5:Nat) = 5) ∧
    (canAliasCM 5 5 = isAliasedCM 5 5) ∧ (canAliasCM 5 5 = true ↔ (5:Nat) = 5) :=
  c7_canAlias_isAliased_equiv 5 5

/-- C9 (implicit): the scalar operator= fills every element of the row
(all j < size()) with the scalar, leaves every entry outside the row and
the storage beyond the row length unchanged, and is total: it performs no
check and cannot fail (it returns a matrix for every input).  The
column-major specialization computes the same function. -/
theorem c9_scalar_fill (M : Mat α) (i : Nat) (v : α) :
    ((fillRM M i v).rows = M.rows ∧ (fillRM M i v).cols = M.cols) ∧
    (∀ j, j < M.cols → (fillRM M i v).entry i j = v) ∧
    (∀ r c, r ≠ i → (fillRM M i v).entry r c = M.entry r c) ∧
    (∀ c, M.cols ≤ c → (fillRM M i v).entry i c = M.entry i c) ∧
    fillCM M i v = fillRM M i v := by
  obtain ⟨hsh, hent⟩ := fillLoopRM_spec i v M.cols 0 M
  have hdef : fillRM M i v = fillLoopRM i v 0 M.cols M := rfl
  refine ⟨by rw [hdef]; exact hsh, fun j hj => ?_, fun r c hr => ?_, fun c hc => ?_, ?_⟩
  · rw [hdef, hent i j, if_pos ⟨rfl, by omega⟩]
  · rw [hdef, hent r c, if_neg (fun h => hr h.1)]
  · rw [hdef, hent i c, if_neg (by omega)]
  · unfold fillCM fillRM
    rw [fillLoopCM_eq]

/-- Witness for C9 on M0: filling row 0 with 3 writes both columns. -/
theorem c9_scalar_fill_witness :
    (fillRM M0 0 (3:Int)).entry 0 0 = 3 ∧ (fillRM M0 0 (3:Int)).entry 0 1 = 3 :=
  ⟨(c9_scalar_fill M0 0 3).2.1 0 (by decide), (c9_scalar_fill M0 0 3).2.1 1 (by decide)⟩

/-- C4: each of the four assignment operators reports the size-mismatch
error when the right-hand-side size differs from size(); the check
precedes the aliasing analysis and every kernel, and the error outcome
carries no modified matrix, so the operation is all-or-nothing.  The
column-major operators perform the same check. -/
theorem c4_size_mismatch_all_or_nothing (cfg : KernelCfg) (M : Mat α) (i : Nat)
    (e : VecExpr α) (h : e.n ≠ M.cols) :
    opAssignRM cfg M i e = Except.error BlazeError.sizeMismatch ∧
    opAddAssignRM cfg M i e = Except.error BlazeError.sizeMismatch ∧
    opSubAssignRM cfg M i e = Except.error BlazeError.sizeMismatch ∧
    opMultAssignRM cfg M i e = Except.error BlazeError.sizeMismatch ∧
    opAssignCM M i e = Except.error BlazeError.sizeMismatch ∧
    opAddAssignCM M i e = Except.error BlazeError.sizeMismatch ∧
    opSubAssignCM M i e = Except.error BlazeError.sizeMismatch ∧
    opMultAssignCM M i e = Except.error BlazeError.sizeMismatch := by
  have h2 : M.cols ≠ e.n := fun hh => h hh.symm
  exact ⟨opAssignRM_err cfg M i e h2, opAddAssignRM_err cfg M i e h2,
    opSubAssignRM_err cfg M i e h2, opMultAssignRM_err cfg M i e h2,
    opAssignCM_err M i e h2, opAddAssignCM_err M i e h2,
    opSubAssignCM_err M i e h2, opMultAssignCM_err M i e h2⟩

/-- Witness for C4: a dense vector of size 3 against the 2-column M0. -/
theorem c4_size_mismatch_all_or_nothing_witness :
    (denseVecCa (fun _ => (1:Int)) 3 false).n ≠ M0.cols ∧
    opAssignRM cfg0 M0 0 (denseVecCa (fun _ => (1:Int)) 3 false) =
      Except.error BlazeError.sizeMismatch ∧
    opMultAssignRM cfg0 M0 0 (denseVecCa (fun _ => (1:Int)) 3 false) =
      Except.error BlazeError.sizeMismatch :=
  ⟨by decide,
   (c4_size_mismatch_all_or_nothing cfg0 M0 0 _ (by decide)).1,
   (c4_size_mismatch_all_or_nothing cfg0 M0 0 _ (by decide)).2.2.2.1⟩

/-- C6: assigning a same-size non-aliasing dense vector to row i writes
v j into every column j < columns and modifies no entry outside row i
(for either value of the SFINAE vectorization switch, i.e. through the
scalar or the SIMD kernel). -/
theorem c6_dense_assign_frame (cfg : KernelCfg) (M : Mat α) (i : Nat) (v : Nat → α) :
    ∃ N, opAssignRM cfg M i (denseVecCa v M.cols false) = Except.ok N ∧
      (N.rows = M.rows ∧ N.cols = M.cols) ∧
      (∀ j, j < M.cols → N.entry i j = v j) ∧
      (∀ r c, r ≠ i → N.entry r c = M.entry r c) := by
  refine ⟨assignDenseRM cfg M i (fun _ => v) M.cols false, ?_, ?_, ?_, ?_⟩
  · exact opAssignRM_dense_noalias cfg M i (denseVecCa v M.cols false) rfl rfl rfl
  · exact (assignDenseRM_spec cfg M i v M.cols false).1
  · intro j hj
    exact ((assignDenseRM_spec cfg M i v M.cols false).2 i j).2 rfl hj
  · intro r c hr
    exact ((assignDenseRM_spec cfg M i v M.cols false).2 r c).1 hr

/-- Witness for C6 on M0 with the vector (11, 13), under both dispatch
configurations. -/
theorem c6_dense_assign_frame_witness :
    (∃ N, opAssignRM cfg0 M0 0
        (denseVecCa (fun j => if j = 0 then (11:Int) else 13) M0.cols false) =
          Except.ok N ∧
      (N.rows = M0.rows ∧ N.cols = M0.cols) ∧
      (∀ j, j < M0.cols → N.entry 0 j = (fun j => if j = 0 then (11:Int) else 13) j) ∧
      (∀ r c, r ≠ 0 → N.entry r c = M0.entry r c)) ∧
    (∃ N, opAssignRM cfg1 M0 0
        (denseVecCa (fun j => if j = 0 then (11:Int) else 13) M0.cols false) =
          Except.ok N ∧
      (N.rows = M0.rows ∧ N.cols = M0.cols) ∧
      (∀ j, j < M0.cols → N.entry 0 j = (fun j => if j = 0 then (11:Int) else 13) j) ∧
      (∀ r c, r ≠ 0 → N.entry r c = M0.entry r c)) :=
  ⟨c6_dense_assign_frame cfg0 M0 0 _, c6_dense_assign_frame cfg1 M0 0 _⟩

/-- C2: multiplication assignment with a same-size sparse source (whether
or not it aliases the matrix - the operator always materializes a sparse
temporary) leaves r[k]*m at every listed index k with value m, resets
every unlisted position of the row to zero, and touches no other row; the
kernel realizes this by snapshotting the row, resetting it, and
scatter-writing tmp[index]*value. -/
theorem c2_sparse_mult_semantics (cfg : KernelCfg) (M : Mat α) (i : Nat)
    (s : List (Nat × α)) (ca : Bool) (hs : sparseValid s M.cols) :
    ∃ N, opMultAssignRM cfg M i (sparseVecCa s M.cols ca) = Except.ok N ∧
      (N.rows = M.rows ∧ N.cols = M.cols) ∧
      (∀ p ∈ s, N.entry i p.1 = M.entry i p.1 * p.2) ∧
      (∀ j, j < M.cols → j ∉ s.map Prod.fst → N.entry i j = 0) ∧
      (∀ r c, r ≠ i → N.entry r c = M.entry r c) := by
  obtain ⟨hsh, hother, hzero, hlist⟩ := multAssignSparseRM_spec M i s hs.1
  exact ⟨multAssignSparseRM M i s,
    opMultAssignRM_sparse cfg M i (sparseVecCa s M.cols ca) rfl rfl,
    hsh, hlist, hzero, hother⟩

/-- Witness for C2 on M0 with the sparse multiplier [(1, 3)]: position 1
becomes 7*3, position 0 (unlisted) becomes 0. -/
theorem c2_sparse_mult_semantics_witness :
    sparseValid [((1:Nat), (3:Int))] M0.cols ∧
    (∃ N, opMultAssignRM cfg0 M0 0 (sparseVecCa [(1, (3:Int))] M0.cols false) =
        Except.ok N ∧
      (N.rows = M0.rows ∧ N.cols = M0.cols) ∧
      (∀ p ∈ [((1:Nat), (3:Int))], N.entry 0 p.1 = M0.entry 0 p.1 * p.2) ∧
      (∀ j, j < M0.cols → j ∉ [((1:Nat), (3:Int))].map Prod.fst → N.entry 0 j = 0) ∧
      (∀ r c, r ≠ 0 → N.entry r c = M0.entry r c)) :=
  ⟨by constructor
      · exact List.pairwise_singleton _ _
      · intro p hp
        rw [List.mem_singleton.mp hp]
        decide,
   c2_sparse_mult_semantics cfg0 M0 0 [(1, 3)] false
     ⟨List.pairwise_singleton _ _, by
        intro p hp
        rw [List.mem_singleton.mp hp]
        decide⟩⟩

/-- C10 (implicit): addition and subtraction assignment with a same-size
sparse source modify exactly the listed indices of the row (adding,
respectively subtracting, the listed value there); every unlisted
position of the row and every entry outside the row keep their previous
values - in contrast to sparse plain assign and sparse mult-assign. -/
theorem c10_sparse_addsub_frame (cfg : KernelCfg) (M : Mat α) (i : Nat)
    (s : List (Nat × α)) (ca : Bool) (hs : sparseValid s M.cols) :
    ∃ Na Ns,
      opAddAssignRM cfg M i (sparseVecCa s M.cols ca) = Except.ok Na ∧
      opSubAssignRM cfg M i (sparseVecCa s M.cols ca) = Except.ok Ns ∧
      (Na.rows = M.rows ∧ Na.cols = M.cols ∧ Ns.rows = M.rows ∧ Ns.cols = M.cols) ∧
      (∀ p ∈ s, Na.entry i p.1 = M.entry i p.1 + p.2 ∧
                Ns.entry i p.1 = M.entry i p.1 - p.2) ∧
      (∀ c, c ∉ s.map Prod.fst → Na.entry i c = M.entry i c ∧
                                 Ns.entry i c = M.entry i c) ∧
      (∀ r c, r ≠ i → Na.entry r c = M.entry r c ∧ Ns.entry r c = M.entry r c) := by
  obtain ⟨hsha, hothera, huna, hlista⟩ := addAssignSparseRM_spec M i s hs.1
  obtain ⟨hshs, hothers, huns, hlists⟩ := subAssignSparseRM_spec M i s hs.1
  exact ⟨addAssignSparseRM M i s, subAssignSparseRM M i s,
    opAddAssignRM_sparse cfg M i (sparseVecCa s M.cols ca) rfl rfl,
    opSubAssignRM_sparse cfg M i (sparseVecCa s M.cols ca) rfl rfl,
    ⟨hsha.1, hsha.2, hshs.1, hshs.2⟩,
    fun p hp => ⟨hlista p hp, hlists p hp⟩,
    fun c hc => ⟨huna c hc, huns c hc⟩,
    fun r c hr => ⟨hothera r c hr, hothers r c hr⟩⟩

/-- Witness for C10 on M0 with the sparse source [(0, 2)]: position 0
becomes 5+2 (resp. 5-2), position 1 stays 7. -/
theorem c10_sparse_addsub_frame_witness :
    ∃ Na Ns,
      opAddAssignRM cfg0 M0 0 (sparseVecCa [((0:Nat), (2:Int))] M0.cols false) =
        Except.ok Na ∧
      opSubAssignRM cfg0 M0 0 (sparseVecCa [((0:Nat), (2:Int))] M0.cols false) =
        Except.ok Ns ∧
      (Na.rows = M0.rows ∧ Na.cols = M0.cols ∧ Ns.rows = M0.rows ∧ Ns.cols = M0.cols) ∧
      (∀ p ∈ [((0:Nat), (2:Int))], Na.entry 0 p.1 = M0.entry 0 p.1 + p.2 ∧
                Ns.entry 0 p.1 = M0.entry 0 p.1 - p.2) ∧
      (∀ c, c ∉ [((0:Nat), (2:Int))].map Prod.fst → Na.entry 0 c = M0.entry 0 c ∧
                                 Ns.entry 0 c = M0.entry 0 c) ∧
      (∀ r c, r ≠ 0 → Na.entry r c = M0.entry r c ∧ Ns.entry r c = M0.entry r c) :=
  c10_sparse_addsub_frame cfg0 M0 0 [(0, 2)] false
    ⟨List.pairwise_singleton _ _, by
      intro p hp
      rw [List.mem_singleton.mp hp]
      decide⟩

/-- C3 counterexample: the claim asserts that after plain assignment of a
sparse source every unlisted position is zero REGARDLESS of aliasing.  On
the concrete matrix M0 (row (5, 7)) and the aliasing sparse expression
eAliasSparse (canAlias true, single listed index 0), the row-major
operator= takes the materializing branch, which scatter-assigns the
sparse temporary WITHOUT resetting the row first (lines 685-688 have no
reset), so the unlisted position 1 keeps the stale value 7 instead of 0. -/
theorem c3_counterexample :
    ¬ (∀ N, opAssignRM cfg0 M0 0 eAliasSparse = Except.ok N → N.entry 0 1 = 0) := fun h =>
  absurd (h (assignSparseRM M0 0 (eAliasSparse.evalS M0)) rfl) (by decide)

/-- C3 amended: for a same-size sparse source that does NOT alias the
matrix (canAlias false), plain assignment first resets the row and then
scatter-writes, so every listed position holds its listed value, every
unlisted position of the row holds zero, and no other row changes.  (The
aliasing branch, by contrast, skips the reset: see the counterexample.) -/
theorem c3_sparse_assign_zeroes (cfg : KernelCfg) (M : Mat α) (i : Nat)
    (s : List (Nat × α)) (hs : sparseValid s M.cols) :
    ∃ N, opAssignRM cfg M i (sparseVecCa s M.cols false) = Except.ok N ∧
      (N.rows = M.rows ∧ N.cols = M.cols) ∧
      (∀ p ∈ s, N.entry i p.1 = p.2) ∧
      (∀ j, j < M.cols → j ∉ s.map Prod.fst → N.entry i j = 0) ∧
      (∀ r c, r ≠ i → N.entry r c = M.entry r c) := by
  obtain ⟨hsh, hother, huntouched, hlist⟩ := assignSparseRM_spec (rowResetRM M i) i s hs.1
  refine ⟨assignSparseRM (rowResetRM M i) i s,
    opAssignRM_sparse_noalias cfg M i (sparseVecCa s M.cols false) rfl rfl rfl,
    ⟨?_, ?_⟩, hlist, fun j hj hjm => ?_, fun r c hr => ?_⟩
  · rw [hsh.1, rowResetRM_rows]
  · rw [hsh.2, rowResetRM_cols]
  · rw [huntouched j hjm, rowResetRM_entry, if_pos ⟨rfl, hj⟩]
  · rw [hother r c hr, rowResetRM_entry, if_neg (fun hh => hr hh.1)]

/-- Witness for the amended C3 on M0 with the non-aliasing sparse source
[(0, 9)]: position 0 becomes 9 and the unlisted position 1 becomes 0. -/
theorem c3_sparse_assign_zeroes_witness :
    ∃ N, opAssignRM cfg0 M0 0 (sparseVecCa [((0:Nat), (9:Int))] M0.cols false) =
        Except.ok N ∧
      (N.rows = M0.rows ∧ N.cols = M0.cols) ∧
      (∀ p ∈ [((0:Nat), (9:Int))], N.entry 0 p.1 = p.2) ∧
      (∀ j, j < M0.cols → j ∉ [((0:Nat), (9:Int))].map Prod.fst → N.entry 0 j = 0) ∧
      (∀ r c, r ≠ 0 → N.entry r c = M0.entry r c) :=
  c3_sparse_assign_zeroes cfg0 M0 0 [(0, 9)]
    ⟨List.pairwise_singleton _ _, by
      intro p hp
      rw [List.mem_singleton.mp hp]
      decide⟩

/-- C1 counterexample: the claim asserts that for EVERY right-hand side
whose canAlias check is true, each of the four operators agrees with
first materializing an independent temporary and then applying the same
operator with that temporary.  For plain assignment of the aliasing
SPARSE expression eAliasSparse over M0 this fails: the aliasing branch
scatter-assigns the sparse temporary without reset (stale 7 survives at
the unlisted position 1), while applying operator= with the materialized
temporary takes the non-aliasing branch, which resets the row first
(position 1 becomes 0).  The two final matrix states differ. -/
theorem c1_counterexample :
    opAssignRM cfg0 M0 0 eAliasSparse ≠
      opAssignRM cfg0 M0 0 (materializeExpr M0 eAliasSparse) := by
  intro h
  have h3 := Except.ok.inj h
  have h2 := congrArg (fun N : Mat Int => N.entry 0 1) h3
  exact absurd h2 (by decide)

/-- C1 amended: for every right-hand side whose canAlias check against
the destination matrix is true, the three compound operators +=, -=, *=
(for any source category) and plain assignment = restricted to DENSE
sources produce exactly the final state obtained by first materializing
the expression against the pre-assignment matrix into an independent
temporary and then applying the same operator with that temporary; in
particular no element read of the right-hand side ever observes a
partially-overwritten row, since every read happens against the
materialized pre-state.  (Plain assignment of an aliasing sparse source
deviates: the materializing branch skips the reset that the
operator-with-temporary performs, see the counterexample.) -/
theorem c1_alias_materialize_equiv (cfg : KernelCfg) (M : Mat α) (i : Nat)
    (e : VecExpr α) (h : e.canAliasM = true) :
    (e.sparse = false →
      opAssignRM cfg M i e = opAssignRM cfg M i (materializeExpr M e)) ∧
    opAddAssignRM cfg M i e = opAddAssignRM cfg M i (materializeExpr M e) ∧
    opSubAssignRM cfg M i e = opSubAssignRM cfg M i (materializeExpr M e) ∧
    opMultAssignRM cfg M i e = opMultAssignRM cfg M i (materializeExpr M e) := by
  by_cases hn : M.cols = e.n
  · by_cases hsp : e.sparse = true
    · refine ⟨fun hdf => absurd hsp (by rw [hdf]; exact Bool.false_ne_true), ?_, ?_, ?_⟩
      · rw [opAddAssignRM_sparse cfg M i e hn hsp,
          opAddAssignRM_sparse cfg M i (materializeExpr M e) hn hsp]
        rfl
      · rw [opSubAssignRM_sparse cfg M i e hn hsp,
          opSubAssignRM_sparse cfg M i (materializeExpr M e) hn hsp]
        rfl
      · rw [opMultAssignRM_sparse cfg M i e hn hsp,
          opMultAssignRM_sparse cfg M i (materializeExpr M e) hn hsp]
        rfl
    · have hsp2 : e.sparse = false := by
        cases hb : e.sparse
        · rfl
        · exact absurd hb hsp
      refine ⟨fun _ => ?_, ?_, ?_, ?_⟩
      · rw [opAssignRM_dense_alias cfg M i e hn h hsp2,
          opAssignRM_dense_noalias cfg M i (materializeExpr M e) hn rfl hsp2]
        rfl
      · rw [opAddAssignRM_dense_alias cfg M i e hn h hsp2,
          opAddAssignRM_dense_noalias cfg M i (materializeExpr M e) hn rfl hsp2]
        rfl
      · rw [opSubAssignRM_dense_alias cfg M i e hn h hsp2,
          opSubAssignRM_dense_noalias cfg M i (materializeExpr M e) hn rfl hsp2]
        rfl
      · rw [opMultAssignRM_dense_alias cfg M i e hn h hsp2,
          opMultAssignRM_dense_noalias cfg M i (materializeExpr M e) hn rfl hsp2]
        rfl
  · have hn2 : M.cols ≠ e.n := hn
    have hn3 : M.cols ≠ (materializeExpr M e).n := hn
    refine ⟨fun _ => ?_, ?_, ?_, ?_⟩
    · rw [opAssignRM_err cfg M i e hn2, opAssignRM_err cfg M i _ hn3]
    · rw [opAddAssignRM_err cfg M i e hn2, opAddAssignRM_err cfg M i _ hn3]
    · rw [opSubAssignRM_err cfg M i e hn2, opSubAssignRM_err cfg M i _ hn3]
    · rw [opMultAssignRM_err cfg M i e hn2, opMultAssignRM_err cfg M i _ hn3]

/-- Witness for the amended C1 on M0 with the aliasing dense doubling
expression and the aliasing sparse expression. -/
theorem c1_alias_materialize_equiv_witness :
    (opAssignRM cfg0 M0 0 eAliasDense =
      opAssignRM cfg0 M0 0 (materializeExpr M0 eAliasDense)) ∧
    (opAddAssignRM cfg0 M0 0 eAliasDense =
      opAddAssignRM cfg0 M0 0 (materializeExpr M0 eAliasDense)) ∧
    (opMultAssignRM cfg0 M0 0 eAliasDense =
      opMultAssignRM cfg0 M0 0 (materializeExpr M0 eAliasDense)) ∧
    (opMultAssignRM cfg0 M0 0 eAliasSparse =
      opMultAssignRM cfg0 M0 0 (materializeExpr M0 eAliasSparse)) :=
  ⟨(c1_alias_materialize_equiv cfg0 M0 0 eAliasDense rfl).1 rfl,
   (c1_alias_materialize_equiv cfg0 M0 0 eAliasDense rfl).2.1,
   (c1_alias_materialize_equiv cfg0 M0 0 eAliasDense rfl).2.2.2,
   (c1_alias_materialize_equiv cfg0 M0 0 eAliasSparse rfl).2.2.2⟩

/-- C8 counterexample: the two storage-order specializations do NOT
produce identical observable results for every operation.  For plain
assignment of the aliasing sparse expression eAliasSparse over M0 (row
(5, 7)), the row-major operator= materializes the source's sparse
ResultType and scatter-writes it without reset (final row (9, 7)), while
the column-major operator= materializes the row's dense ResultType (line
1956) and dense-assigns it (final row (9, 0)); the results differ at
position 1. -/
theorem c8_counterexample :
    ¬ ExceptLogicEq (opAssignRM cfg0 M0 0 eAliasSparse) (opAssignCM M0 0 eAliasSparse) := by
  intro h
  have h2 : LogicEq (assignSparseRM M0 0 (eAliasSparse.evalS M0))
      (scalarKernelCM (fun _ s => s) 0 (fun _ => densify M0 eAliasSparse)
        eAliasSparse.n M0) := h
  have h3 := h2.2.2 0 1 (by decide) (by decide)
  exact absurd h3 (by decide)

/-- C8 amended: for two matrices holding identical logical values behind
the row-major and the column-major specialization and a valid row index,
every listed public row-view operation produces identical observable
results - element read, size, nonZeros, reset, scale, scalar fill, the
four operators with dense sources (any size, aliasing flag and SFINAE
dispatch), and the sparse +=, -= and *= operators (any aliasing flag);
sparse plain assignment agrees whenever the source does not alias the
matrix.  The sole divergence, plain assignment of an aliasing sparse
source, is exhibited by the counterexample. -/
theorem c8_layout_equivalence [DecidableEq α] (Mrm Mcm : Mat α)
    (h : LogicEq Mrm Mcm) (i : Nat) (hi : i < Mrm.rows) (cfg : KernelCfg)
    (v : Nat → α) (nv : Nat) (s : List (Nat × α)) (hs : sparseValid s Mrm.cols)
    (sc : α) (ca : Bool) :
    (∀ j, j < Mrm.cols → subscriptRM Mrm i j = subscriptCM Mcm i j) ∧
    sizeRM Mrm = sizeCM Mcm ∧
    nonZerosRM Mrm i = nonZerosCM Mcm i ∧
    LogicEq (rowResetRM Mrm i) (rowResetCM Mcm i) ∧
    LogicEq (scaleRM Mrm i sc) (scaleCM Mcm i sc) ∧
    LogicEq (fillRM Mrm i sc) (fillCM Mcm i sc) ∧
    ExceptLogicEq (opAssignRM cfg Mrm i (denseVecCa v nv ca))
      (opAssignCM Mcm i (denseVecCa v nv ca)) ∧
    ExceptLogicEq (opAddAssignRM cfg Mrm i (denseVecCa v nv ca))
      (opAddAssignCM Mcm i (denseVecCa v nv ca)) ∧
    ExceptLogicEq (opSubAssignRM cfg Mrm i (denseVecCa v nv ca))
      (opSubAssignCM Mcm i (denseVecCa v nv ca)) ∧
    ExceptLogicEq (opMultAssignRM cfg Mrm i (denseVecCa v nv ca))
      (opMultAssignCM Mcm i (denseVecCa v nv ca)) ∧
    ExceptLogicEq (opAssignRM cfg Mrm i (sparseVecCa s Mrm.cols false))
      (opAssignCM Mcm i (sparseVecCa s Mrm.cols false)) ∧
    ExceptLogicEq (opAddAssignRM cfg Mrm i (sparseVecCa s Mrm.cols ca))
      (opAddAssignCM Mcm i (sparseVecCa s Mrm.cols ca)) ∧
    ExceptLogicEq (opSubAssignRM cfg Mrm i (sparseVecCa s Mrm.cols ca))
      (opSubAssignCM Mcm i (sparseVecCa s Mrm.cols ca)) ∧
    ExceptLogicEq (opMultAssignRM cfg Mrm i (sparseVecCa s Mrm.cols ca))
      (opMultAssignCM Mcm i (sparseVecCa s Mrm.cols ca)) := by
  have hcols : Mrm.cols = Mcm.cols := h.2.1
  refine ⟨?_, ?_, ?_, ?_, ?_, ?_, ?_, ?_, ?_, ?_, ?_, ?_, ?_, ?_⟩
  -- element reads
  · intro j hj
    exact h.2.2 i j hi hj
  -- size
  · exact h.2.1
  -- nonZeros
  · unfold nonZerosRM matrixRowNonZeros nonZerosCM
    rw [nonZerosLoopCM_eq, ← hcols]
    apply List.countP_congr
    intro j hj
    rw [h.2.2 i j hi (List.mem_range.mp hj)]
  -- reset
  · refine logicEq_of_specs h i rfl rfl (rowResetCM_rows Mcm i) (rowResetCM_cols Mcm i)
      (fun r c hri => by rw [rowResetRM_entry, if_neg (fun hh => hri hh.1)])
      (fun r c hri => by rw [rowResetCM_entry, if_neg (fun hh => hri hh.1)])
      (fun c hc => by
        rw [rowResetRM_entry, if_pos ⟨rfl, hc⟩, rowResetCM_entry,
          if_pos ⟨rfl, hcols ▸ hc⟩])
  -- scale
  · have hrm := scaleLoopRM_spec i sc Mrm.cols 0 Mrm
    have hcm := scaleLoopRM_spec i sc Mcm.cols 0 Mcm
    have hcmeq : scaleCM Mcm i sc = scaleLoopRM i sc 0 Mcm.cols Mcm := by
      unfold scaleCM
      rw [scaleLoopCM_eq]
    refine logicEq_of_specs h i hrm.1.1 hrm.1.2 (by rw [hcmeq]; exact hcm.1.1)
      (by rw [hcmeq]; exact hcm.1.2)
      (fun r c hri => by
        show (scaleLoopRM i sc 0 Mrm.cols Mrm).entry r c = Mrm.entry r c
        rw [hrm.2 r c, if_neg (fun hh => hri hh.1)])
      (fun r c hri => by
        rw [hcmeq, hcm.2 r c, if_neg (fun hh => hri hh.1)])
      (fun c hc => by
        show (scaleLoopRM i sc 0 Mrm.cols Mrm).entry i c = (scaleCM Mcm i sc).entry i c
        rw [hcmeq, hrm.2 i c, if_pos ⟨rfl, by omega, by omega⟩, hcm.2 i c,
          if_pos ⟨rfl, by omega, by omega⟩, h.2.2 i c hi hc])
  -- scalar fill
  · have hrm := fillLoopRM_spec i sc Mrm.cols 0 Mrm
    have hcm := fillLoopRM_spec i sc Mcm.cols 0 Mcm
    have hcmeq : fillCM Mcm i sc = fillLoopRM i sc 0 Mcm.cols Mcm := by
      unfold fillCM
      rw [fillLoopCM_eq]
    refine logicEq_of_specs h i hrm.1.1 hrm.1.2 (by rw [hcmeq]; exact hcm.1.1)
      (by rw [hcmeq]; exact hcm.1.2)
      (fun r c hri => by
        show (fillLoopRM i sc 0 Mrm.cols Mrm).entry r c = Mrm.entry r c
        rw [hrm.2 r c, if_neg (fun hh => hri hh.1)])
      (fun r c hri => by
        rw [hcmeq, hcm.2 r c, if_neg (fun hh => hri hh.1)])
      (fun c hc => by
        show (fillLoopRM i sc 0 Mrm.cols Mrm).entry i c = (fillCM Mcm i sc).entry i c
        rw [hcmeq, hrm.2 i c, if_pos ⟨rfl, by omega, by omega⟩, hcm.2 i c,
          if_pos ⟨rfl, by omega, by omega⟩])
  -- dense assign
  · by_cases hnv : Mrm.cols = nv
    · have hnvcm : Mcm.cols = nv := by omega
      have hrm := assignDenseRM_spec cfg Mrm i v nv false
      have hrm2 := assignDenseRM_spec cfg Mrm i v nv ca
      have hcm := scalarKernelCM_spec (fun _ s => s) i v nv Mcm
      by_cases hca2 : ca = true
      · rw [opAssignRM_dense_alias cfg Mrm i _ hnv hca2 rfl,
          opAssignCM_alias Mcm i _ hnvcm hca2]
        exact exceptLogicEq_ok (logicEq_of_specs h i hrm.1.1 hrm.1.2 hcm.1.1 hcm.1.2
          (fun r c hri => (hrm.2 r c).1 hri)
          (fun r c hri => by
            show (scalarKernelCM (fun _ s => s) i (fun _ => v) nv Mcm).entry r c =
              Mcm.entry r c
            rw [hcm.2 r c, if_neg (fun hh => hri hh.1)])
          (fun c hc => by
            show (assignDenseRM cfg Mrm i (fun _ => v) nv false).entry i c =
              (scalarKernelCM (fun _ s => s) i (fun _ => v) nv Mcm).entry i c
            rw [(hrm.2 i c).2 rfl (by omega), hcm.2 i c, if_pos ⟨rfl, by omega⟩]))
      · have hca3 : ca = false := by
          cases hb : ca
          · rfl
          · exact absurd hb hca2
        rw [opAssignRM_dense_noalias cfg Mrm i _ hnv hca3 rfl,
          opAssignCM_dense_noalias Mcm i _ hnvcm hca3 rfl]
        exact exceptLogicEq_ok (logicEq_of_specs h i hrm2.1.1 hrm2.1.2 hcm.1.1 hcm.1.2
          (fun r c hri => (hrm2.2 r c).1 hri)
          (fun r c hri => by
            show (scalarKernelCM (fun _ s => s) i (fun _ => v) nv Mcm).entry r c =
              Mcm.entry r c
            rw [hcm.2 r c, if_neg (fun hh => hri hh.1)])
          (fun c hc => by
            show (assignDenseRM cfg Mrm i (fun _ => v) nv ca).entry i c =
              (scalarKernelCM (fun _ s => s) i (fun _ => v) nv Mcm).entry i c
            rw [(hrm2.2 i c).2 rfl (by omega), hcm.2 i c, if_pos ⟨rfl, by omega⟩]))
    · rw [opAssignRM_err cfg Mrm i _ (fun hh => hnv hh),
        opAssignCM_err Mcm i _ (fun hh => hnv (hcols.trans hh))]
      exact exceptLogicEq_err rfl
  -- dense add-assign
  · by_cases hnv : Mrm.cols = nv
    · have hnvcm : Mcm.cols = nv := by omega
      have hrm := addAssignDenseRM_spec cfg Mrm i v nv
      have hcm := scalarKernelCM_spec (fun o s => o + s) i v nv Mcm
      have hmain := exceptLogicEq_ok (α := α)
        (logicEq_of_specs h i hrm.1.1 hrm.1.2 hcm.1.1 hcm.1.2
          (fun r c hri => (hrm.2 r c).1 hri)
          (fun r c hri => by
            show (scalarKernelCM (fun o s => o + s) i (fun _ => v) nv Mcm).entry r c =
              Mcm.entry r c
            rw [hcm.2 r c, if_neg (fun hh => hri hh.1)])
          (fun c hc => by
            show (addAssignDenseRM cfg Mrm i (fun _ => v) nv).entry i c =
              (scalarKernelCM (fun o s => o + s) i (fun _ => v) nv Mcm).entry i c
            rw [(hrm.2 i c).2 rfl (by omega), hcm.2 i c, if_pos ⟨rfl, by omega⟩,
              h.2.2 i c hi hc]))
      by_cases hca2 : ca = true
      · rw [opAddAssignRM_dense_alias cfg Mrm i _ hnv hca2 rfl,
          opAddAssignCM_dense_alias Mcm i _ hnvcm hca2 rfl]
        exact hmain
      · have hca3 : ca = false := by
          cases hb : ca
          · rfl
          · exact absurd hb hca2
        rw [opAddAssignRM_dense_noalias cfg Mrm i _ hnv hca3 rfl,
          opAddAssignCM_dense Mcm i _ hnvcm hca3 rfl]
        exact hmain
    · rw [opAddAssignRM_err cfg Mrm i _ (fun hh => hnv hh),
        opAddAssignCM_err Mcm i _ (fun hh => hnv (hcols.trans hh))]
      exact exceptLogicEq_err rfl
  -- dense sub-assign
  · by_cases hnv : Mrm.cols = nv
    · have hnvcm : Mcm.cols = nv := by omega
      have hrm := subAssignDenseRM_spec cfg Mrm i v nv
      have hcm := scalarKernelCM_spec (fun o s => o - s) i v nv Mcm
      have hmain := exceptLogicEq_ok (α := α)
        (logicEq_of_specs h i hrm.1.1 hrm.1.2 hcm.1.1 hcm.1.2
          (fun r c hri => (hrm.2 r c).1 hri)
          (fun r c hri => by
            show (scalarKernelCM (fun o s => o - s) i (fun _ => v) nv Mcm).entry r c =
              Mcm.entry r c
            rw [hcm.2 r c, if_neg (fun hh => hri hh.1)])
          (fun c hc => by
            show (subAssignDenseRM cfg Mrm i (fun _ => v) nv).entry i c =
              (scalarKernelCM (fun o s => o - s) i (fun _ => v) nv Mcm).entry i c
            rw [(hrm.2 i c).2 rfl (by omega), hcm.2 i c, if_pos ⟨rfl, by omega⟩,
              h.2.2 i c hi hc]))
      by_cases hca2 : ca = true
      · rw [opSubAssignRM_dense_alias cfg Mrm i _ hnv hca2 rfl,
          opSubAssignCM_dense_alias Mcm i _ hnvcm hca2 rfl]
        exact hmain
      · have hca3 : ca = false := by
          cases hb : ca
          · rfl
          · exact absurd hb hca2
        rw [opSubAssignRM_dense_noalias cfg Mrm i _ hnv hca3 rfl,
          opSubAssignCM_dense Mcm i _ hnvcm hca3 rfl]
        exact hmain
    · rw [opSubAssignRM_err cfg Mrm i _ (fun hh => hnv hh),
        opSubAssignCM_err Mcm i _ (fun hh => hnv (hcols.trans hh))]
      exact exceptLogicEq_err rfl
  -- dense mult-assign
  · by_cases hnv : Mrm.cols = nv
    · have hnvcm : Mcm.cols = nv := by omega
      have hrm := multAssignDenseRM_spec cfg Mrm i v nv
      have hcm := scalarKernelCM_spec (fun o s => o * s) i v nv Mcm
      have hmain := exceptLogicEq_ok (α := α)
        (logicEq_of_specs h i hrm.1.1 hrm.1.2 hcm.1.1 hcm.1.2
          (fun r c hri => (hrm.2 r c).1 hri)
          (fun r c hri => by
            show (scalarKernelCM (fun o s => o * s) i (fun _ => v) nv Mcm).entry r c =
              Mcm.entry r c
            rw [hcm.2 r c, if_neg (fun hh => hri hh.1)])
          (fun c hc => by
            show (multAssignDenseRM cfg Mrm i (fun _ => v) nv).entry i c =
              (scalarKernelCM (fun o s => o * s) i (fun _ => v) nv Mcm).entry i c
            rw [(hrm.2 i c).2 rfl (by omega), hcm.2 i c, if_pos ⟨rfl, by omega⟩,
              h.2.2 i c hi hc]))
      by_cases hca2 : ca = true
      · rw [opMultAssignRM_dense_alias cfg Mrm i _ hnv hca2 rfl,
          opMultAssignCM_dense_alias Mcm i _ hnvcm hca2 rfl]
        exact hmain
      · have hca3 : ca = false := by
          cases hb : ca
          · rfl
          · exact absurd hb hca2
        rw [opMultAssignRM_dense_noalias cfg Mrm i _ hnv hca3 rfl,
          opMultAssignCM_dense_noalias Mcm i _ hnvcm hca3 rfl]
        exact hmain
    · rw [opMultAssignRM_err cfg Mrm i _ (fun hh => hnv hh),
        opMultAssignCM_err Mcm i _ (fun hh => hnv (hcols.trans hh))]
      exact exceptLogicEq_err rfl
  -- sparse plain assign, non-aliasing source
  · rw [opAssignRM_sparse_noalias cfg Mrm i _ rfl rfl rfl,
      opAssignCM_sparse_noalias Mcm i _ hcols.symm rfl rfl]
    obtain ⟨hsha, hothera, huna, hlista⟩ := assignSparseRM_spec (rowResetRM Mrm i) i s hs.1
    obtain ⟨hshb, hotherb, hunb, hlistb⟩ := assignSparseRM_spec (rowResetCM Mcm i) i s hs.1
    refine exceptLogicEq_ok (logicEq_of_specs h i (hsha.1.trans (rowResetRM_rows Mrm i))
      (hsha.2.trans (rowResetRM_cols Mrm i)) (hshb.1.trans (rowResetCM_rows Mcm i))
      (hshb.2.trans (rowResetCM_cols Mcm i))
      (fun r c hri => (hothera r c hri).trans
        (by rw [rowResetRM_entry, if_neg (fun hh => hri hh.1)]))
      (fun r c hri => (hotherb r c hri).trans
        (by rw [rowResetCM_entry, if_neg (fun hh => hri hh.1)]))
      (fun c hc => ?_))
    by_cases hmem : c ∈ s.map Prod.fst
    · obtain ⟨p, hp, hpc⟩ := List.mem_map.mp hmem
      rw [← hpc]
      show (assignSparseRM (rowResetRM Mrm i) i s).entry i p.1 =
        (assignSparseRM (rowResetCM Mcm i) i s).entry i p.1
      rw [hlista p hp, hlistb p hp]
    · show (assignSparseRM (rowResetRM Mrm i) i s).entry i c =
        (assignSparseRM (rowResetCM Mcm i) i s).entry i c
      rw [huna c hmem, hunb c hmem, rowResetRM_entry, rowResetCM_entry,
        if_pos ⟨rfl, hc⟩, if_pos ⟨rfl, hcols ▸ hc⟩]
  -- sparse add-assign
  · rw [opAddAssignRM_sparse cfg Mrm i _ rfl rfl,
      opAddAssignCM_sparse Mcm i _ hcols.symm rfl]
    obtain ⟨hsha, hothera, huna, hlista⟩ := addAssignSparseRM_spec Mrm i s hs.1
    obtain ⟨hshb, hotherb, hunb, hlistb⟩ := addAssignSparseRM_spec Mcm i s hs.1
    refine exceptLogicEq_ok (logicEq_of_specs h i hsha.1 hsha.2 hshb.1 hshb.2
      (fun r c hri => hothera r c hri) (fun r c hri => hotherb r c hri)
      (fun c hc => ?_))
    by_cases hmem : c ∈ s.map Prod.fst
    · obtain ⟨p, hp, hpc⟩ := List.mem_map.mp hmem
      rw [← hpc]
      show (addAssignSparseRM Mrm i s).entry i p.1 = (addAssignSparseRM Mcm i s).entry i p.1
      rw [hlista p hp, hlistb p hp, h.2.2 i p.1 hi (hs.2 p hp)]
    · show (addAssignSparseRM Mrm i s).entry i c = (addAssignSparseRM Mcm i s).entry i c
      rw [huna c hmem, hunb c hmem, h.2.2 i c hi hc]
  -- sparse sub-assign
  · rw [opSubAssignRM_sparse cfg Mrm i _ rfl rfl,
      opSubAssignCM_sparse Mcm i _ hcols.symm rfl]
    obtain ⟨hsha, hothera, huna, hlista⟩ := subAssignSparseRM_spec Mrm i s hs.1
    obtain ⟨hshb, hotherb, hunb, hlistb⟩ := subAssignSparseRM_spec Mcm i s hs.1
    refine exceptLogicEq_ok (logicEq_of_specs h i hsha.1 hsha.2 hshb.1 hshb.2
      (fun r c hri => hothera r c hri) (fun r c hri => hotherb r c hri)
      (fun c hc => ?_))
    by_cases hmem : c ∈ s.map Prod.fst
    · obtain ⟨p, hp, hpc⟩ := List.mem_map.mp hmem
      rw [← hpc]
      show (subAssignSparseRM Mrm i s).entry i p.1 = (subAssignSparseRM Mcm i s).entry i p.1
      rw [hlista p hp, hlistb p hp, h.2.2 i p.1 hi (hs.2 p hp)]
    · show (subAssignSparseRM Mrm i s).entry i c = (subAssignSparseRM Mcm i s).entry i c
      rw [huna c hmem, hunb c hmem, h.2.2 i c hi hc]
  -- sparse mult-assign
  · rw [opMultAssignRM_sparse cfg Mrm i _ rfl rfl,
      opMultAssignCM_sparse Mcm i _ hcols.symm rfl]
    obtain ⟨hsha, hothera, hzeroa, hlista⟩ := multAssignSparseRM_spec Mrm i s hs.1
    obtain ⟨hshb, hotherb, hzerob, hlistb⟩ := multAssignSparseCM_spec Mcm i s hs.1
    refine exceptLogicEq_ok (logicEq_of_specs h i hsha.1 hsha.2 hshb.1 hshb.2
      (fun r c hri => hothera r c hri) (fun r c hri => hotherb r c hri)
      (fun c hc => ?_))
    by_cases hmem : c ∈ s.map Prod.fst
    · obtain ⟨p, hp, hpc⟩ := List.mem_map.mp hmem
      rw [← hpc]
      show (multAssignSparseRM Mrm i s).entry i p.1 =
        (multAssignSparseCM Mcm i s).entry i p.1
      rw [hlista p hp, hlistb p hp, h.2.2 i p.1 hi (hs.2 p hp)]
    · show (multAssignSparseRM Mrm i s).entry i c = (multAssignSparseCM Mcm i s).entry i c
      rw [hzeroa c hc hmem, hzerob c (hcols ▸ hc) hmem]

/-- Witness for the amended C8 at M0 against itself (a matrix is
logically equal to its storage twin), row 0, with the vectorized
dispatch, the dense vector constant 1 and the sparse source [(0, 2)]. -/
theorem c8_layout_equivalence_witness :
    nonZerosRM M0 0 = nonZerosCM M0 0 ∧
    LogicEq (rowResetRM M0 0) (rowResetCM M0 0) ∧
    ExceptLogicEq
      (opMultAssignRM cfg1 M0 0 (sparseVecCa [((0:Nat), (2:Int))] M0.cols false))
      (opMultAssignCM M0 0 (sparseVecCa [((0:Nat), (2:Int))] M0.cols false)) := by
  have hle : LogicEq M0 M0 := ⟨rfl, rfl, fun _ _ _ _ => rfl⟩
  have hc8 := c8_layout_equivalence M0 M0 hle 0 (by decide) cfg1 (fun _ => (1:Int)) 2
    [(0, 2)]
    ⟨List.pairwise_singleton _ _, by
      intro p hp
      rw [List.mem_singleton.mp hp]
      decide⟩
    3 false
  exact ⟨hc8.2.2.1, hc8.2.2.2.1, hc8.2.2.2.2.2.2.2.2.2.2.2.2.2⟩

end Claims

end Blaze
